import Mathlib

/-!
Deprecation analysis of `govmomi`.

A shallow embedding of

* `compat/model.go`  (`Field`, `ManagedObject`, `API`, `GetDeprecatedMethods`,
  `GetDeprecatedProperties`),
* `compat/data.go`   (`GetAPI`, `versionLess`, `APIVersions`),
* `analysis/passes/deprecated/deprecated.go` (`run`, `runMethods`, `runCallers`),

together with theorems about the deprecation-taint propagation they implement.

Conventions of the embedding.

* A Go `map[string]*T` is a `GoMap T`: the list of its (key, value) pairs in the
  order in which a `range` loop over the map enumerates them.  A different
  enumeration order is a permutation of that list.  Assignment `m[k] = v`
  removes any pair stored under `k` and adds the new one; `m[k]` is `List.lookup`.
  The values are the structs pointed to; no entry holds a nil pointer.
* The syntax tree of a package is reduced to what the pass reads: the function
  declarations in the order `inspector.Preorder` visits them, each with the call
  expressions of its body in the order `ast.Inspect` visits them (an outer call
  before the calls nested in it, statements in source order), each call with its
  position and the result of `typeutil.Callee`.  Every declaration has a body.
* The mutable part of an `analysis.Pass` is the record `Pass`: the facts the pass
  can import, and what it has exported, reported and logged so far.  The fact
  store is the one of the host driver: a pass imports the facts stored before it
  started and the ones it exported itself, and exports facts on its own package
  and on the objects of its own package only.
* `counter` of `runMethods` is a natural number; a Go `int` does not overflow on
  the number of declarations of a package.
* `semver.Compare` and `sort.Slice` are library functions; `versionLess` and
  `APIVersions` take them as parameters, and the theorems name the part of their
  contract they use.
-/

namespace Govmomi

/-! ## compat/model.go -/

/-- The Go struct `Field`. -/
structure Field where
  FQN : String
  Deprecated : Bool
deriving DecidableEq, Repr

/-- A Go `map[string]*T` as its pairs in enumeration order. -/
abbrev GoMap (α : Type) := List (String × α)

/-- The Go assignment `m[k] = v`. -/
def GoMap.assign {α : Type} (m : GoMap α) (k : String) (v : α) : GoMap α :=
  (k, v) :: m.filter (fun e => !(e.1 == k))

/-- The Go struct `ManagedObject` (the embedded `Field` is `toField`). -/
structure ManagedObject where
  toField : Field
  Methods : GoMap Field
  Properties : GoMap Field
deriving DecidableEq, Repr

/-- The Go struct `DataObject`. -/
structure DataObject where
  toField : Field
  Properties : GoMap Field
deriving DecidableEq, Repr

/-- The Go struct `Enum`. -/
structure Enum where
  toField : Field
  Constants : GoMap Field
deriving DecidableEq, Repr

/-- The Go struct `Fault`. -/
structure Fault where
  toField : Field
  Properties : GoMap Field
deriving DecidableEq, Repr

/-- The Go struct `API`. -/
structure API where
  Version : String
  ManagedObjects : GoMap ManagedObject
  DataObjects : GoMap DataObject
  Enums : GoMap Enum
  Faults : GoMap Fault
deriving DecidableEq, Repr

/-- The inner loop of `GetDeprecatedMethods`:
`for n, m := range o.Methods { if m.Deprecated { methods[n] = m } }`; the inner
loops of `GetDeprecatedProperties` are the same loop over `o.Properties` and
`o.Constants`. -/
def collectDeprecated (methods : GoMap Field) (fields : GoMap Field) : GoMap Field :=
  fields.foldl (fun acc nm => if nm.2.Deprecated then acc.assign nm.1 nm.2 else acc) methods

/-- The method `(*API).GetDeprecatedMethods`. -/
def GetDeprecatedMethods (a : API) : GoMap Field :=
  a.ManagedObjects.foldl (fun methods o => collectDeprecated methods o.2.Methods) []

/-! ## compat/data.go -/

/-- The package variable `data` of type `db`, a `map[string]*API`. -/
abbrev Db := GoMap API

/-- The function `GetAPI`: `data[v]`, the nil pointer when the version is not loaded. -/
def GetAPI (data : Db) (v : String) : Option API :=
  data.lookup v

/-! ## analysis/passes/deprecated/deprecated.go -/

/-- The constant `vmomiPackage`. -/
def vmomiPackage : String := "github.com/vmware/govmomi"

/-- The constant `vimMethodsPath`. -/
def vimMethodsPath : String := "vim25/methods"

/-- The value of `path.Join(vmomiPackage, vimMethodsPath)`: both constants are clean
slash-separated paths, so the join is their concatenation with one slash. -/
def methodsPkgPath : String := vmomiPackage ++ "/" ++ vimMethodsPath

/-- The function `strings.HasPrefix`. -/
def HasPrefix (s pre : String) : Bool :=
  pre.data.isPrefixOf s.data

/-- The identity of a `types.Object`: the path of its package and a key that
distinguishes it inside the package (two methods of the same name on different
receivers are different objects). -/
structure Obj where
  pkg : String
  key : String
deriving DecidableEq, Repr

/-- An `ast.CallExpr` as the pass reads it: `call.Pos()` and the result of
`typeutil.Callee(pass.TypesInfo, call)`, `none` being the nil object. -/
structure CallExpr where
  pos : Nat
  callee : Option Obj
deriving DecidableEq, Repr

/-- An `ast.FuncDecl` as the pass reads it: `fn.Name.String()`, the key of the
object `pass.TypesInfo.Defs[fn.Name]`, and the call expressions of `fn.Body` in
the order `ast.Inspect` visits them. -/
structure FuncDecl where
  name : String
  key : String
  body : List CallExpr
deriving DecidableEq, Repr

/-- A package under analysis: `pass.Pkg.Path()`, the paths of `pass.Pkg.Imports()`
and the function declarations in the order `inspector.Preorder` visits them. -/
structure Package where
  path : String
  imports : List String
  decls : List FuncDecl
deriving DecidableEq, Repr

/-- The object `pass.TypesInfo.Defs[fn.Name]`: it belongs to the package of the pass. -/
def Defs (pkg : Package) (fn : FuncDecl) : Obj :=
  ⟨pkg.path, fn.key⟩

/-- The fact store: the `isDeprecated` facts by object (the `FQN` of each) and the
packages carrying `hasDeprecated`. -/
structure Facts where
  objectFacts : List (Obj × String)
  packageFacts : List String
deriving DecidableEq, Repr

/-- An `analysis.Diagnostic`: position and message. -/
structure Diagnostic where
  pos : Nat
  message : String
deriving DecidableEq, Repr

/-- The mutable part of an `analysis.Pass`: the fact store as the pass sees it, the
object facts and package facts it exported (in order), the diagnostics it
reported and the lines it logged. -/
structure Pass where
  facts : Facts
  objExports : List (Obj × String)
  pkgExports : List String
  diagnostics : List Diagnostic
  logs : List String
deriving DecidableEq, Repr

/-- The pass of a unit starts on the facts of the store and has done nothing yet. -/
def freshPass (s : Facts) : Pass :=
  ⟨s, [], [], [], []⟩

/-- Modelled from the spec: `ImportObjectFact(function, &fact) -> bool` of the host
driver, for the fact type `isDeprecated`; `some fqn` is `true` with `fact.FQN = fqn`. -/
def ImportObjectFact (p : Pass) (o : Obj) : Option String :=
  p.facts.objectFacts.lookup o

/-- Modelled from the spec: `ExportObjectFact(function, fact)` of the host driver,
for the fact type `isDeprecated`; the fact replaces one already attached. -/
def ExportObjectFact (p : Pass) (o : Obj) (fqn : String) : Pass :=
  { p with
    facts := { p.facts with
      objectFacts := (o, fqn) :: p.facts.objectFacts.filter (fun e => !(e.1 == o)) }
    objExports := p.objExports ++ [(o, fqn)] }

/-- Modelled from the spec: `ImportPackageFact(unit, &fact) -> bool` of the host
driver, for the fact type `hasDeprecated`. -/
def ImportPackageFact (p : Pass) (pkgPath : String) : Bool :=
  p.facts.packageFacts.contains pkgPath

/-- Modelled from the spec: `ExportPackageFact(fact)` of the host driver, for the
fact type `hasDeprecated`, attached to the package of the pass. -/
def ExportPackageFact (p : Pass) (pkgPath : String) : Pass :=
  { p with
    facts := { p.facts with
      packageFacts :=
        if p.facts.packageFacts.contains pkgPath then p.facts.packageFacts
        else pkgPath :: p.facts.packageFacts }
    pkgExports := p.pkgExports ++ [pkgPath] }

/-- The call `pass.Reportf(pos, "deprecated API detected: %s", fqn)`. -/
def Reportf (p : Pass) (pos : Nat) (fqn : String) : Pass :=
  { p with diagnostics := p.diagnostics ++ [⟨pos, "deprecated API detected: " ++ fqn⟩] }

/-- The call `log.Println(msg)`. -/
def Println (p : Pass) (msg : String) : Pass :=
  { p with logs := p.logs ++ [msg] }

/-- The body of the `inspect.Preorder` callback of `runMethods` for one function
declaration; the state is the pass and `counter`. -/
def methodsVisit (pkg : Package) (deprecated : GoMap Field) (st : Pass × Nat)
    (fn : FuncDecl) : Pass × Nat :=
  match deprecated.lookup fn.name with
  | some f => (ExportObjectFact st.1 (Defs pkg fn) f.FQN, st.2 + 1)
  | none => st

/-- The function `runMethods`.  `none` is the nil-pointer panic of
`compat.GetAPI("7.0").GetDeprecatedMethods()` when version 7.0 is not loaded. -/
def runMethods (data : Db) (pkg : Package) (pass : Pass) : Option Pass :=
  match GetAPI data "7.0" with
  | none => none
  | some api =>
    let deprecated := GetDeprecatedMethods api
    let st := pkg.decls.foldl (methodsVisit pkg deprecated) (pass, 0)
    let p := st.1
    let counter := st.2
    let p := if counter != deprecated.length then
        Println p "some deprecated methods are not mapped" else p
    let p := if counter != 0 then ExportPackageFact p pkg.path else p
    some p

/-- The body of the `ast.Inspect` callback of `runCallers` for one call expression
of the declaration `fn`; the state is the pass and `makeInteresting`. -/
def visitCall (pkg : Package) (report : Bool) (fn : FuncDecl) (st : Pass × Bool)
    (call : CallExpr) : Pass × Bool :=
  match call.callee with
  | none => st
  | some callee =>
    match ImportObjectFact st.1 callee with
    | none => st
    | some fqn =>
      let p := ExportObjectFact st.1 (Defs pkg fn) fqn
      let p := if report then Reportf p call.pos fqn else p
      (p, true)

/-- The body of the `inspect.Preorder` callback of `runCallers` for one function
declaration: `ast.Inspect(fn.Body, ...)`. -/
def visitDecl (pkg : Package) (report : Bool) (st : Pass × Bool) (fn : FuncDecl) :
    Pass × Bool :=
  fn.body.foldl (visitCall pkg report fn) st

/-- The function `runCallers`. -/
def runCallers (pkg : Package) (report : Bool) (pass : Pass) : Pass :=
  let st := pkg.decls.foldl (visitDecl pkg report) (pass, false)
  if st.2 then ExportPackageFact st.1 pkg.path else st.1

/-- The loop of `run` over `pass.Pkg.Imports()` that computes `interesting`. -/
def interesting (pkg : Package) (pass : Pass) : Bool :=
  pkg.imports.foldl (fun b imp => if ImportPackageFact pass imp then true else b) false

/-- The function `run`. -/
def run (data : Db) (pkg : Package) (pass : Pass) : Option Pass :=
  if pkg.path == methodsPkgPath then runMethods data pkg pass
  else if !(interesting pkg pass) then some pass
  else if HasPrefix pkg.path (vmomiPackage ++ "/") then some (runCallers pkg false pass)
  else some (runCallers pkg true pass)

/-- The host driver's schedule: the units are analysed one after the other in the
given order, each by one pass of `run` started on the facts stored so far; the
result is the final store and, per unit, the diagnostics of its pass. -/
def analyse (data : Db) : List Package → Facts → Option (Facts × List (String × List Diagnostic))
  | [], s => some (s, [])
  | u :: us, s =>
    match run data u (freshPass s) with
    | none => none
    | some p =>
      match analyse data us p.facts with
      | none => none
      | some r => some (r.1, (u.path, p.diagnostics) :: r.2)

/-- Distinct declarations of a package define distinct objects. -/
def DistinctObjects (pkg : Package) : Prop :=
  (pkg.decls.map FuncDecl.key).Nodup

instance (pkg : Package) : Decidable (DistinctObjects pkg) := by
  unfold DistinctObjects; infer_instance

/-! ## A concrete scenario -/

/-- A 7.0 snapshot whose only deprecated method is `PowerOn`. -/
def scenarioApi : API :=
  { Version := "7.0"
    ManagedObjects :=
      [("VirtualMachine",
        { toField := ⟨"VirtualMachine", false⟩
          Methods := [("PowerOn", ⟨"VirtualMachine.PowerOn", true⟩),
                      ("Rename", ⟨"VirtualMachine.Rename", false⟩)]
          Properties := [] })]
    DataObjects := []
    Enums := []
    Faults := [] }

/-- The loaded database of the scenario. -/
def scenarioDb : Db := [("7.0", scenarioApi)]

/-- The binding-layer unit of the scenario: `PowerOn`, calling nothing. -/
def scenarioMethods : Package :=
  { path := "github.com/vmware/govmomi/vim25/methods"
    imports := []
    decls := [⟨"PowerOn", "PowerOn", []⟩] }

/-- A binding-layer unit with a deprecated and a current operation. -/
def scenarioMethodsTwo : Package :=
  { path := "github.com/vmware/govmomi/vim25/methods"
    imports := []
    decls := [⟨"PowerOn", "PowerOn", []⟩, ⟨"Rename", "Rename", []⟩] }

/-- The library unit of the scenario: the wrapper `Start` calls `PowerOn`. -/
def scenarioLibrary : Package :=
  { path := "github.com/vmware/govmomi/object"
    imports := ["github.com/vmware/govmomi/vim25/methods"]
    decls := [⟨"Start", "Start",
      [⟨10, some ⟨"github.com/vmware/govmomi/vim25/methods", "PowerOn"⟩⟩]⟩] }

/-- The consumer unit of the scenario: `main` calls `Start`. -/
def scenarioConsumer : Package :=
  { path := "example.com/app"
    imports := ["github.com/vmware/govmomi/object"]
    decls := [⟨"main", "main",
      [⟨20, some ⟨"github.com/vmware/govmomi/object", "Start"⟩⟩]⟩] }

/-- The empty fact store. -/
def emptyFacts : Facts := ⟨[], []⟩

/-- The fact the target of a call carries when the call is visited in the state `p`
of the pass: `none` when the callee is not resolved or carries no fact. -/
def calleeFact (p : Pass) (call : CallExpr) : Option String :=
  match call.callee with
  | none => none
  | some callee => ImportObjectFact p callee

/-- The call sites of a body whose target carried an `isDeprecated` fact when
visited, in visit order, each with the `FQN` of that fact; the body is visited
from the state `st` of `runCallers`. -/
def taggedCalls (pkg : Package) (report : Bool) (fn : FuncDecl) :
    Pass × Bool → List CallExpr → List (CallExpr × String)
  | _, [] => []
  | st, c :: cs =>
    match calleeFact st.1 c with
    | some fqn => (c, fqn) :: taggedCalls pkg report fn (visitCall pkg report fn st c) cs
    | none => taggedCalls pkg report fn (visitCall pkg report fn st c) cs

/-- The call sites of the declarations of a unit whose target carried an
`isDeprecated` fact when visited, in visit order. -/
def taggedCallsOfUnit (pkg : Package) (report : Bool) :
    Pass × Bool → List FuncDecl → List (CallExpr × String)
  | _, [] => []
  | st, fn :: fns =>
    taggedCalls pkg report fn st fn.body ++
      taggedCallsOfUnit pkg report (visitDecl pkg report st fn) fns

/-- The diagnostic of a reported call site. -/
def diagnosticOf (e : CallExpr × String) : Diagnostic :=
  ⟨e.1.pos, "deprecated API detected: " ++ e.2⟩

/-- The fact store of the scenario after the pass of the binding layer. -/
def scenarioFactsMethods : Facts :=
  { objectFacts :=
      [(⟨"github.com/vmware/govmomi/vim25/methods", "PowerOn"⟩, "VirtualMachine.PowerOn")]
    packageFacts := ["github.com/vmware/govmomi/vim25/methods"] }

/-- The fact store of the scenario after the pass of the library unit. -/
def scenarioFactsLibrary : Facts :=
  { objectFacts :=
      [(⟨"github.com/vmware/govmomi/object", "Start"⟩, "VirtualMachine.PowerOn"),
       (⟨"github.com/vmware/govmomi/vim25/methods", "PowerOn"⟩, "VirtualMachine.PowerOn")]
    packageFacts :=
      ["github.com/vmware/govmomi/object", "github.com/vmware/govmomi/vim25/methods"] }

/-- The invariant of `runCallers` that the unit flag needs. -/
def CallersInv (pkg : Package) (pass : Pass) (st : Pass × Bool) : Prop :=
  st.1.pkgExports = pass.pkgExports ∧
  st.1.facts.packageFacts = pass.facts.packageFacts ∧
  (st.2 = true ↔ st.1.objExports ≠ []) ∧
  ∀ e ∈ st.1.objExports, ∃ g ∈ pkg.decls, e.1 = Defs pkg g

/-- The invariant of `runMethods` that the unit flag needs. -/
def MethodsInv (pkg : Package) (pass : Pass) (st : Pass × Nat) : Prop :=
  st.1.pkgExports = pass.pkgExports ∧
  st.1.facts.packageFacts = pass.facts.packageFacts ∧
  st.2 = st.1.objExports.length ∧
  ∀ e ∈ st.1.objExports, ∃ g ∈ pkg.decls, e.1 = Defs pkg g

/-- A unit for the tie-break: `f` calls a target tagged `A`, then a target tagged `B`. -/
def tieUnit : Package :=
  { path := "github.com/vmware/govmomi/object"
    imports := ["github.com/vmware/govmomi/vim25/methods"]
    decls := [⟨"f", "f",
      [⟨1, some ⟨"github.com/vmware/govmomi/vim25/methods", "OpA"⟩⟩,
       ⟨2, some ⟨"github.com/vmware/govmomi/vim25/methods", "OpB"⟩⟩]⟩] }

/-- The store for the tie-break: the two targets carry the origins `A` and `B`. -/
def tieFacts : Facts :=
  { objectFacts :=
      [(⟨"github.com/vmware/govmomi/vim25/methods", "OpA"⟩, "A"),
       (⟨"github.com/vmware/govmomi/vim25/methods", "OpB"⟩, "B")]
    packageFacts := ["github.com/vmware/govmomi/vim25/methods"] }

/-- The state of `runCallers` at the moment the call that follows the calls `seen`
of the body of `fn` is visited, the declarations `before` having been visited. -/
def stateAt (pkg : Package) (report : Bool) (pass : Pass) (before : List FuncDecl)
    (fn : FuncDecl) (seen : List CallExpr) : Pass × Bool :=
  seen.foldl (visitCall pkg report fn) (before.foldl (visitDecl pkg report) (pass, false))

/-- The invariant of the stores reached by analysing the units `done` from the
empty store: an object fact comes with the package fact of its unit, a package
fact is on a unit already analysed, and the binding layer was analysed before any
package fact appeared. -/
def StoreInv (done : List String) (s : Facts) : Prop :=
  (∀ o, (ImportObjectFact (freshPass s) o).isSome →
    ImportPackageFact (freshPass s) o.pkg = true) ∧
  (∀ q, ImportPackageFact (freshPass s) q = true → q ∈ done ∧ methodsPkgPath ∈ done)

/-- A second library unit: `powerOn` calls the wrapper `Start`. -/
def scenarioWrapper : Package :=
  { path := "github.com/vmware/govmomi/govc/vm"
    imports := ["github.com/vmware/govmomi/object"]
    decls := [⟨"powerOn", "powerOn",
      [⟨30, some ⟨"github.com/vmware/govmomi/object", "Start"⟩⟩]⟩] }

/-- The method entries of all managed objects, in the order in which the two
loops of `GetDeprecatedMethods` enumerate them. -/
def methodEntries (a : API) : List (String × Field) :=
  a.ManagedObjects.flatMap (fun o => o.2.Methods)

/-- The same entry of `ManagedObjects`, its method map and property map enumerated
in another order. -/
def sameManagedObject (o o' : String × ManagedObject) : Prop :=
  o.1 = o'.1 ∧ o.2.toField = o'.2.toField ∧
    o.2.Methods.Perm o'.2.Methods ∧ o.2.Properties.Perm o'.2.Properties

/-- The snapshot `b` is the snapshot `a` with the map of managed objects and the
method maps enumerated in another order. -/
def Reenumerated (a b : API) : Prop :=
  ∃ l, a.ManagedObjects.Perm l ∧ List.Forall₂ sameManagedObject l b.ManagedObjects

/-- Deprecated methods of the same name, of whatever managed objects, have the
same `FQN`. -/
def DeprecatedNamesAgree (a : API) : Prop :=
  ∀ e ∈ methodEntries a, ∀ e' ∈ methodEntries a,
    e.2.Deprecated = true → e'.2.Deprecated = true → e.1 = e'.1 → e.2.FQN = e'.2.FQN

instance (a : API) : Decidable (DeprecatedNamesAgree a) := by
  unfold DeprecatedNamesAgree; infer_instance

/-- A snapshot in which two managed objects declare a deprecated method `Destroy`. -/
def collisionApi : API :=
  { Version := "7.0"
    ManagedObjects :=
      [("Folder",
        { toField := ⟨"Folder", false⟩
          Methods := [("Destroy", ⟨"Folder.Destroy", true⟩)]
          Properties := [] }),
       ("Datastore",
        { toField := ⟨"Datastore", false⟩
          Methods := [("Destroy", ⟨"Datastore.Destroy", true⟩)]
          Properties := [] })]
    DataObjects := []
    Enums := []
    Faults := [] }

/-- The snapshot `collisionApi` with the map of managed objects enumerated in the
other order. -/
def collisionApiSwapped : API :=
  { Version := "7.0"
    ManagedObjects :=
      [("Datastore",
        { toField := ⟨"Datastore", false⟩
          Methods := [("Destroy", ⟨"Datastore.Destroy", true⟩)]
          Properties := [] }),
       ("Folder",
        { toField := ⟨"Folder", false⟩
          Methods := [("Destroy", ⟨"Folder.Destroy", true⟩)]
          Properties := [] })]
    DataObjects := []
    Enums := []
    Faults := [] }

/-- A binding-layer unit that defines `Destroy`. -/
def collisionMethods : Package :=
  { path := "github.com/vmware/govmomi/vim25/methods"
    imports := []
    decls := [⟨"Destroy", "Destroy", []⟩] }

/-- A snapshot with two managed objects and no shared method name. -/
def twoObjectsApi : API :=
  { Version := "7.0"
    ManagedObjects :=
      [("VirtualMachine",
        { toField := ⟨"VirtualMachine", false⟩
          Methods := [("PowerOn", ⟨"VirtualMachine.PowerOn", true⟩),
                      ("Rename", ⟨"VirtualMachine.Rename", false⟩)]
          Properties := [] }),
       ("HostSystem",
        { toField := ⟨"HostSystem", false⟩
          Methods := [("Reboot", ⟨"HostSystem.Reboot", true⟩)]
          Properties := [] })]
    DataObjects := []
    Enums := []
    Faults := [] }

/-- The snapshot `twoObjectsApi` with its maps enumerated in another order. -/
def twoObjectsApiSwapped : API :=
  { Version := "7.0"
    ManagedObjects :=
      [("HostSystem",
        { toField := ⟨"HostSystem", false⟩
          Methods := [("Reboot", ⟨"HostSystem.Reboot", true⟩)]
          Properties := [] }),
       ("VirtualMachine",
        { toField := ⟨"VirtualMachine", false⟩
          Methods := [("Rename", ⟨"VirtualMachine.Rename", false⟩),
                      ("PowerOn", ⟨"VirtualMachine.PowerOn", true⟩)]
          Properties := [] })]
    DataObjects := []
    Enums := []
    Faults := [] }

/-- The resolved callees of the declarations of the units that define the object `o`. -/
def calleesOf (units : List Package) (o : Obj) : List Obj :=
  units.flatMap (fun u =>
    u.decls.flatMap (fun fn =>
      if Defs u fn = o then fn.body.filterMap CallExpr.callee else []))

/-- The object `b` is reached from `a` through a chain of at most `n` resolved calls. -/
def reachesIn (units : List Package) : Nat → Obj → Obj → Bool
  | 0, a, b => a == b
  | n + 1, a, b => a == b || (calleesOf units a).any (fun c => reachesIn units n c b)

/-- A consumer unit with a chain inside the unit: `a` calls `b`, declared after
it, and `b` calls the wrapper `Start`. -/
def scenarioChain : Package :=
  { path := "example.com/app"
    imports := ["github.com/vmware/govmomi/object"]
    decls :=
      [⟨"a", "a", [⟨40, some ⟨"example.com/app", "b"⟩⟩]⟩,
       ⟨"b", "b", [⟨41, some ⟨"github.com/vmware/govmomi/object", "Start"⟩⟩]⟩] }

/-- The declaration without the call sites of its body whose callee is not resolved. -/
def FuncDecl.dropUnresolved (fn : FuncDecl) : FuncDecl :=
  { fn with body := fn.body.filter (fun c => c.callee.isSome) }

/-- The unit without the call sites whose callee is not resolved. -/
def Package.dropUnresolved (pkg : Package) : Package :=
  { pkg with decls := pkg.decls.map FuncDecl.dropUnresolved }

/-- The number of function declarations of the unit whose name is a key of the map
`deprecated`: the matched declarations of `runMethods`. -/
def matchedDecls (pkg : Package) (deprecated : GoMap Field) : Nat :=
  (pkg.decls.filter (fun fn => (deprecated.lookup fn.name).isSome)).length

/-- The function `runMethods` with the consistency check, the `if` around
`log.Println`, taken out. -/
def runMethodsUnchecked (data : Db) (pkg : Package) (pass : Pass) : Option Pass :=
  match GetAPI data "7.0" with
  | none => none
  | some api =>
    let deprecated := GetDeprecatedMethods api
    let st := pkg.decls.foldl (methodsVisit pkg deprecated) (pass, 0)
    let p := st.1
    let counter := st.2
    let p := if counter != 0 then ExportPackageFact p pkg.path else p
    some p

/-- The method `(*API).GetDeprecatedProperties`: four loops over the managed
objects, the data objects, the enums and the faults fill the same map. -/
def GetDeprecatedProperties (a : API) : GoMap Field :=
  let fields : GoMap Field := []
  let fields := a.ManagedObjects.foldl
    (fun fields o => collectDeprecated fields o.2.Properties) fields
  let fields := a.DataObjects.foldl
    (fun fields o => collectDeprecated fields o.2.Properties) fields
  let fields := a.Enums.foldl
    (fun fields o => collectDeprecated fields o.2.Constants) fields
  let fields := a.Faults.foldl
    (fun fields o => collectDeprecated fields o.2.Properties) fields
  fields

/-- The property and constant entries of the snapshot, in the order in which the
loops of `GetDeprecatedProperties` enumerate them. -/
def propertyEntries (a : API) : List (String × Field) :=
  a.ManagedObjects.flatMap (fun o => o.2.Properties) ++
    (a.DataObjects.flatMap (fun o => o.2.Properties) ++
      (a.Enums.flatMap (fun o => o.2.Constants) ++
        a.Faults.flatMap (fun o => o.2.Properties)))

/-- A library unit whose method `VirtualMachine.PowerOn` calls the deprecated
operation `PowerOn` of the binding layer. -/
def indirectLibrary : Package :=
  { path := "github.com/vmware/govmomi/object"
    imports := ["github.com/vmware/govmomi/vim25/methods"]
    decls := [⟨"PowerOn", "VirtualMachine.PowerOn",
      [⟨10, some ⟨"github.com/vmware/govmomi/vim25/methods", "PowerOn"⟩⟩]⟩] }

/-- A unit outside the project that imports the library unit and hands out its
`VirtualMachine` values: `GetVM` calls nothing that is tagged. -/
def indirectHelper : Package :=
  { path := "example.com/helper"
    imports := ["github.com/vmware/govmomi/object"]
    decls := [⟨"GetVM", "GetVM", []⟩] }

/-- A consumer unit that imports the helper only: `main` calls `helper.GetVM()` and
then the method `PowerOn` of the value it got. -/
def indirectConsumer : Package :=
  { path := "example.com/tool"
    imports := ["example.com/helper"]
    decls := [⟨"main", "main",
      [⟨50, some ⟨"example.com/helper", "GetVM"⟩⟩,
       ⟨60, some ⟨"github.com/vmware/govmomi/object", "VirtualMachine.PowerOn"⟩⟩]⟩] }

/-- The store reached by analysing the binding layer, the library unit and the
helper of the indirect scenario. -/
def indirectFacts : Facts :=
  { objectFacts :=
      [(⟨"github.com/vmware/govmomi/object", "VirtualMachine.PowerOn"⟩,
          "VirtualMachine.PowerOn"),
       (⟨"github.com/vmware/govmomi/vim25/methods", "PowerOn"⟩, "VirtualMachine.PowerOn")]
    packageFacts :=
      ["github.com/vmware/govmomi/object", "github.com/vmware/govmomi/vim25/methods"] }

/-- The unit is a library unit in the words of the specification: its path lies
within the namespace `github.com/vmware/govmomi`, the root of the namespace
included, and it is not the binding layer. -/
def libraryBySpec (p : String) : Bool :=
  (p == vmomiPackage || HasPrefix p (vmomiPackage ++ "/")) && !(p == methodsPkgPath)

/-- The root unit of the project: `NewClient` calls the deprecated operation
`PowerOn`. -/
def rootUnit : Package :=
  { path := "github.com/vmware/govmomi"
    imports := ["github.com/vmware/govmomi/vim25/methods"]
    decls := [⟨"NewClient", "NewClient",
      [⟨70, some ⟨"github.com/vmware/govmomi/vim25/methods", "PowerOn"⟩⟩]⟩] }

/-- A unit whose path only shares the text `github.com/vmware/govmomi` as a prefix. -/
def extraUnit : Package :=
  { path := "github.com/vmware/govmomi-extra"
    imports := ["github.com/vmware/govmomi/vim25/methods"]
    decls := [⟨"Run", "Run",
      [⟨80, some ⟨"github.com/vmware/govmomi/vim25/methods", "PowerOn"⟩⟩]⟩] }

/-- Every entry of the map `deprecated` has a function declaration of the same name
in the unit. -/
def everyEntryMapped (pkg : Package) (deprecated : GoMap Field) : Bool :=
  deprecated.all (fun e => pkg.decls.any (fun fn => fn.name == e.1))

/-- A binding layer in which two declarations are named `PowerOn` (a function and a
method) and none is named `Reboot`. -/
def duplicateMethods : Package :=
  { path := "github.com/vmware/govmomi/vim25/methods"
    imports := []
    decls := [⟨"PowerOn", "PowerOn", []⟩, ⟨"PowerOn", "Body.PowerOn", []⟩] }

/-- A binding layer with a declaration for every deprecated operation, in which two
declarations are named `PowerOn`. -/
def duplicateMethodsTotal : Package :=
  { path := "github.com/vmware/govmomi/vim25/methods"
    imports := []
    decls := [⟨"PowerOn", "PowerOn", []⟩, ⟨"PowerOn", "Body.PowerOn", []⟩,
      ⟨"Reboot", "Reboot", []⟩] }

/-! ## compat/data.go, the versions -/

/-- The function `versionLess`.  `Compare` stands for `semver.Compare` of the
package `golang.org/x/mod/semver`. -/
def versionLess (Compare : String → String → Int) (a b : String) : Bool :=
  let a := if !(HasPrefix a "v") then "v" ++ a else a
  let b := if !(HasPrefix b "v") then "v" ++ b else b
  Compare a b == -1

/-- The function `APIVersions`: the loop appends the keys of `data` in enumeration
order, and the slice is sorted with `versionLess` on its elements.  `sortSlice`
stands for `sort.Slice` of the standard library, its function `less` taken on the
elements instead of their indices. -/
def APIVersions (Compare : String → String → Int)
    (sortSlice : (String → String → Bool) → List String → List String) (data : Db) :
    List String :=
  let versions := data.foldl (fun versions e => versions ++ [e.1]) []
  sortSlice (fun x y => versionLess Compare x y) versions

/-- A function `less` is a strict weak ordering: what `sort.Slice` asks of it. -/
def StrictWeakOrdering (less : String → String → Bool) : Prop :=
  (∀ a b, less a b = true → less b a = false) ∧
  (∀ a b c, less a b = false → less b c = false → less a c = false)

/-- The contract of `sort.Slice`: with a strict weak ordering, the result holds the
elements of the slice, each as often as before, and no element is less than one
before it. -/
def SortsSlices (sortSlice : (String → String → Bool) → List String → List String) : Prop :=
  ∀ less l, StrictWeakOrdering less →
    (sortSlice less l).Perm l ∧ (sortSlice less l).Pairwise (fun x y => less y x = false)

/-- The contract of `semver.Compare`: the result `-1` is the relation "lower" of a
precedence in which any two versions compare (lower, equal or higher). -/
def ComparesByPrecedence (Compare : String → String → Int) : Prop :=
  (∀ a b, Compare a b = -1 → Compare b a ≠ -1) ∧
  (∀ a b c, Compare a b ≠ -1 → Compare b c ≠ -1 → Compare a c ≠ -1)

/-- The number of a version `vMAJOR.MINOR.PATCH`, missing parts counting as zero. -/
def versionNumber (v : String) : Nat :=
  let parts := ((v.drop 1).splitOn ".").map (fun s => s.toNat?.getD 0)
  parts.getD 0 0 * 1000000000000 + parts.getD 1 0 * 1000000 + parts.getD 2 0

/-- A three-way comparison of versions by their numbers, in the manner of
`semver.Compare`. -/
def numericCompare (v w : String) : Int :=
  if versionNumber v < versionNumber w then -1
  else if versionNumber w < versionNumber v then 1 else 0

/-- Sorting by insertion, a function with the contract of `sort.Slice`. -/
def insertionSortSlice (less : String → String → Bool) (l : List String) : List String :=
  l.insertionSort (fun x y => less y x = false)

/-- A database with three versions loaded. -/
def threeVersionsDb : Db :=
  [("7.0", scenarioApi), ("6.7.1", twoObjectsApi), ("v6.5", collisionApi)]

/-- The root unit of the project with a call one step further from the binding
layer: `PowerOnVM` calls the tagged wrapper `Start` of the library unit. -/
def rootWrapperUnit : Package :=
  { path := "github.com/vmware/govmomi"
    imports := ["github.com/vmware/govmomi/object"]
    decls := [⟨"PowerOnVM", "PowerOnVM",
      [⟨75, some ⟨"github.com/vmware/govmomi/object", "Start"⟩⟩]⟩] }

/-! # Theorems -/

/-! ## Lemmas on the fact store -/

theorem lookup_filter_ne {α β : Type} [DecidableEq α] (l : List (α × β)) (a b : α)
    (h : b ≠ a) : List.lookup b (l.filter (fun e => !(e.1 == a))) = List.lookup b l := by
  induction l with
  | nil => rfl
  | cons x xs ih =>
    obtain ⟨k, v⟩ := x
    by_cases hk : k = a
    · subst hk
      have hb : (b == k) = false := by simpa using h
      simp [List.filter, List.lookup, hb, ih]
    · have hk2 : (k == a) = false := by simpa using hk
      simp only [List.filter, hk2, Bool.not_false, List.lookup]
      rw [ih]

theorem lookup_filter_self {α β : Type} [DecidableEq α] (l : List (α × β)) (a : α) :
    List.lookup a (l.filter (fun e => !(e.1 == a))) = none := by
  induction l with
  | nil => rfl
  | cons x xs ih =>
    obtain ⟨k, v⟩ := x
    by_cases hk : k = a
    · subst hk
      simp [List.filter, ih]
    · have hk2 : (k == a) = false := by simpa using hk
      have hk3 : (a == k) = false := by simpa using (Ne.symm hk)
      simp only [List.filter, hk2, Bool.not_false, List.lookup, hk3]
      exact ih

theorem import_export_self (p : Pass) (o : Obj) (v : String) :
    ImportObjectFact (ExportObjectFact p o v) o = some v := by
  simp [ImportObjectFact, ExportObjectFact, List.lookup]

theorem import_export_ne (p : Pass) (o o' : Obj) (v : String) (h : o' ≠ o) :
    ImportObjectFact (ExportObjectFact p o v) o' = ImportObjectFact p o' := by
  have hb : (o' == o) = false := by simpa using h
  simp only [ImportObjectFact, ExportObjectFact, List.lookup, hb]
  exact lookup_filter_ne _ _ _ h

theorem import_println (p : Pass) (m : String) (o : Obj) :
    ImportObjectFact (Println p m) o = ImportObjectFact p o := rfl

theorem import_exportPackage (p : Pass) (q : String) (o : Obj) :
    ImportObjectFact (ExportPackageFact p q) o = ImportObjectFact p o := rfl

theorem import_reportf (p : Pass) (pos : Nat) (m : String) (o : Obj) :
    ImportObjectFact (Reportf p pos m) o = ImportObjectFact p o := rfl

theorem DistinctObjects.eq_of_key {pkg : Package} (h : DistinctObjects pkg)
    {f g : FuncDecl} (hf : f ∈ pkg.decls) (hg : g ∈ pkg.decls) (hk : f.key = g.key) :
    f = g :=
  List.inj_on_of_nodup_map h hf hg hk

/-! ## The Root Tagger -/

theorem methods_fold_untouched (pkg : Package) (dep : GoMap Field) (l : List FuncDecl)
    (st : Pass × Nat) (o : Obj)
    (h : ∀ fn ∈ l, Defs pkg fn = o → dep.lookup fn.name = none) :
    ImportObjectFact (l.foldl (methodsVisit pkg dep) st).1 o = ImportObjectFact st.1 o := by
  induction l generalizing st with
  | nil => rfl
  | cons x xs ih =>
    rw [List.foldl_cons, ih _ (fun fn hfn => h fn (List.mem_cons_of_mem _ hfn))]
    unfold methodsVisit
    cases hx : dep.lookup x.name with
    | none => rfl
    | some f =>
      have hne : o ≠ Defs pkg x := by
        intro heq
        have := h x (List.mem_cons_self _ _) heq.symm
        rw [hx] at this
        cases this
      exact import_export_ne _ _ _ _ hne

theorem methods_fold_tagged (pkg : Package) (dep : GoMap Field) (l : List FuncDecl)
    (st : Pass × Nat) (o : Obj) (v : String)
    (hex : ∃ fn ∈ l, Defs pkg fn = o)
    (hall : ∀ g ∈ l, Defs pkg g = o → (dep.lookup g.name).map Field.FQN = some v) :
    ImportObjectFact (l.foldl (methodsVisit pkg dep) st).1 o = some v := by
  induction l generalizing st with
  | nil => obtain ⟨fn, hfn, _⟩ := hex; cases hfn
  | cons x xs ih =>
    rw [List.foldl_cons]
    by_cases hxs : ∃ fn ∈ xs, Defs pkg fn = o
    · exact ih _ hxs (fun g hg => hall g (List.mem_cons_of_mem _ hg))
    · have hx : Defs pkg x = o := by
        obtain ⟨fn, hfn, ho⟩ := hex
        rcases List.mem_cons.1 hfn with rfl | hmem
        · exact ho
        · exact absurd ⟨fn, hmem, ho⟩ hxs
      rw [methods_fold_untouched pkg dep xs _ o
        (fun fn hfn ho => absurd ⟨fn, hfn, ho⟩ hxs)]
      have hv := hall x (List.mem_cons_self _ _) hx
      unfold methodsVisit
      cases hl : dep.lookup x.name with
      | none => rw [hl] at hv; cases hv
      | some f =>
        rw [hl] at hv
        simp only [Option.map_some', Option.some.injEq] at hv
        subst hx
        rw [← hv]
        exact import_export_self _ _ _

/-- The facts a pass of `runMethods` leaves on the objects: those of the fold. -/
theorem runMethods_import (data : Db) (api : API) (pkg : Package) (pass : Pass)
    (hapi : GetAPI data "7.0" = some api) :
    ∃ p, runMethods data pkg pass = some p ∧
      ∀ o, ImportObjectFact p o =
        ImportObjectFact
          (pkg.decls.foldl (methodsVisit pkg (GetDeprecatedMethods api)) (pass, 0)).1 o := by
  unfold runMethods
  rw [hapi]
  refine ⟨_, rfl, ?_⟩
  intro o
  split <;> split <;> rfl

/-- C1 (Root Tagger).  After the pass of `runMethods` over the binding-layer unit, a
function declared in the unit carries an `isDeprecated` fact exactly when its name
is a key of `GetDeprecatedMethods()` of the 7.0 snapshot, and the fact carries the
`FQN` of the entry stored under that name.  The pass starts on a store that holds
no fact for the objects of the unit, and distinct declarations define distinct
objects. -/
theorem runMethods_tags_iff_deprecated (data : Db) (api : API) (pkg : Package) (s : Facts)
    (hapi : GetAPI data "7.0" = some api)
    (hobj : DistinctObjects pkg)
    (hfresh : ∀ fn ∈ pkg.decls, ImportObjectFact (freshPass s) (Defs pkg fn) = none) :
    ∃ p, runMethods data pkg (freshPass s) = some p ∧
      ∀ fn ∈ pkg.decls,
        ((ImportObjectFact p (Defs pkg fn)).isSome ↔
            ((GetDeprecatedMethods api).lookup fn.name).isSome) ∧
        ∀ f, (GetDeprecatedMethods api).lookup fn.name = some f →
            ImportObjectFact p (Defs pkg fn) = some f.FQN := by
  obtain ⟨p, hp, himp⟩ := runMethods_import data api pkg (freshPass s) hapi
  refine ⟨p, hp, ?_⟩
  intro fn hfn
  have hkey : ∀ g ∈ pkg.decls, Defs pkg g = Defs pkg fn → g = fn := by
    intro g hg hd
    have hk : g.key = fn.key := by
      have := congrArg Obj.key hd
      simpa [Defs] using this
    exact hobj.eq_of_key hg hfn hk
  cases hl : (GetDeprecatedMethods api).lookup fn.name with
  | none =>
    have h0 : ImportObjectFact p (Defs pkg fn) = none := by
      rw [himp, methods_fold_untouched]
      · exact hfresh fn hfn
      · intro g hg hd
        rw [hkey g hg hd]
        exact hl
    simp [h0]
  | some f =>
    have h1 : ImportObjectFact p (Defs pkg fn) = some f.FQN := by
      rw [himp]
      apply methods_fold_tagged
      · exact ⟨fn, hfn, rfl⟩
      · intro g hg hd
        rw [hkey g hg hd, hl]
        rfl
    refine ⟨by simp [h1], ?_⟩
    intro f' hf'
    cases hf'
    exact h1

theorem runMethods_tags_iff_deprecated_witness :
    ∃ p, runMethods scenarioDb scenarioMethodsTwo (freshPass emptyFacts) = some p ∧
      ∀ fn ∈ scenarioMethodsTwo.decls,
        ((ImportObjectFact p (Defs scenarioMethodsTwo fn)).isSome ↔
            ((GetDeprecatedMethods scenarioApi).lookup fn.name).isSome) ∧
        ∀ f, (GetDeprecatedMethods scenarioApi).lookup fn.name = some f →
            ImportObjectFact p (Defs scenarioMethodsTwo fn) = some f.FQN :=
  runMethods_tags_iff_deprecated scenarioDb scenarioApi scenarioMethodsTwo emptyFacts
    (by decide) (by decide) (by decide)

/-! ## The Interest Filter -/

theorem interesting_fold_false (pass : Pass) (l : List String)
    (h : ∀ imp ∈ l, ImportPackageFact pass imp = false) :
    l.foldl (fun b imp => if ImportPackageFact pass imp then true else b) false = false := by
  induction l with
  | nil => rfl
  | cons x xs ih =>
    rw [List.foldl_cons, h x (List.mem_cons_self _ _)]
    exact ih (fun imp himp => h imp (List.mem_cons_of_mem _ himp))

theorem interesting_fold_true (pass : Pass) (l : List String) :
    l.foldl (fun b imp => if ImportPackageFact pass imp then true else b) true = true := by
  induction l with
  | nil => rfl
  | cons x xs ih =>
    rw [List.foldl_cons]
    cases ImportPackageFact pass x <;> exact ih

theorem interesting_iff (pkg : Package) (pass : Pass) :
    interesting pkg pass = true ↔ ∃ imp ∈ pkg.imports, ImportPackageFact pass imp = true := by
  unfold interesting
  induction pkg.imports with
  | nil => simp
  | cons x xs ih =>
    rw [List.foldl_cons]
    cases hx : ImportPackageFact pass x
    · simp only [Bool.false_eq_true, if_false, List.mem_cons, exists_eq_or_imp, hx, false_or]
      exact ih
    · simp only [if_true, List.mem_cons, exists_eq_or_imp, hx, true_or, iff_true]
      exact interesting_fold_true pass xs

/-- C5 (Interest Filter).  For a unit other than the binding layer none of whose
direct imports carries the `hasDeprecated` package fact, the pass of `run`
returns having exported no object fact, exported no package fact and reported no
diagnostic, and the fact store is the one the pass started on. -/
theorem run_uninteresting_unchanged (data : Db) (pkg : Package) (s : Facts)
    (hpath : pkg.path ≠ methodsPkgPath)
    (himp : ∀ imp ∈ pkg.imports, ImportPackageFact (freshPass s) imp = false) :
    ∃ p, run data pkg (freshPass s) = some p ∧
      p.objExports = [] ∧ p.pkgExports = [] ∧ p.diagnostics = [] ∧ p.facts = s := by
  have hi : interesting pkg (freshPass s) = false :=
    interesting_fold_false _ _ himp
  refine ⟨freshPass s, ?_, rfl, rfl, rfl, rfl⟩
  unfold run
  have hb : (pkg.path == methodsPkgPath) = false := by simpa using hpath
  simp [hb, hi]

theorem run_uninteresting_unchanged_witness :
    ∃ p, run scenarioDb scenarioConsumer (freshPass emptyFacts) = some p ∧
      p.objExports = [] ∧ p.pkgExports = [] ∧ p.diagnostics = [] ∧ p.facts = emptyFacts :=
  run_uninteresting_unchanged scenarioDb scenarioConsumer emptyFacts (by decide) (by decide)

/-! ## The Propagator -/

theorem visitCall_none (pkg : Package) (report : Bool) (fn : FuncDecl) (st : Pass × Bool)
    (c : CallExpr) (h : calleeFact st.1 c = none) : visitCall pkg report fn st c = st := by
  unfold visitCall
  unfold calleeFact at h
  cases hc : c.callee with
  | none => rfl
  | some t =>
    rw [hc] at h
    simp only at h
    simp only [h]

theorem visitCall_some (pkg : Package) (report : Bool) (fn : FuncDecl) (st : Pass × Bool)
    (c : CallExpr) (fqn : String) (h : calleeFact st.1 c = some fqn) :
    visitCall pkg report fn st c =
      (if report then Reportf (ExportObjectFact st.1 (Defs pkg fn) fqn) c.pos fqn
        else ExportObjectFact st.1 (Defs pkg fn) fqn, true) := by
  unfold visitCall
  unfold calleeFact at h
  cases hc : c.callee with
  | none => rw [hc] at h; cases h
  | some t =>
    rw [hc] at h
    simp only at h
    simp only [h]

theorem taggedCalls_nil_of_none (pkg : Package) (report : Bool) (fn : FuncDecl)
    (st : Pass × Bool) (c : CallExpr) (cs : List CallExpr) (h : calleeFact st.1 c = none) :
    taggedCalls pkg report fn st (c :: cs) = taggedCalls pkg report fn st cs := by
  rw [taggedCalls, h, visitCall_none pkg report fn st c h]

theorem taggedCalls_cons_of_some (pkg : Package) (report : Bool) (fn : FuncDecl)
    (st : Pass × Bool) (c : CallExpr) (cs : List CallExpr) (fqn : String)
    (h : calleeFact st.1 c = some fqn) :
    taggedCalls pkg report fn st (c :: cs) =
      (c, fqn) :: taggedCalls pkg report fn (visitCall pkg report fn st c) cs := by
  rw [taggedCalls, h]

/-- The tagged calls of a body are the calls whose target carries a fact in the
state reached by visiting the calls before them. -/
theorem mem_taggedCalls_iff (pkg : Package) (report : Bool) (fn : FuncDecl)
    (body : List CallExpr) (st : Pass × Bool) (c : CallExpr) (fqn : String) :
    (c, fqn) ∈ taggedCalls pkg report fn st body ↔
      ∃ seen rest, body = seen ++ c :: rest ∧
        calleeFact (seen.foldl (visitCall pkg report fn) st).1 c = some fqn := by
  induction body generalizing st with
  | nil => simp [taggedCalls]
  | cons d ds ih =>
    constructor
    · intro hmem
      cases hd : calleeFact st.1 d with
      | none =>
        rw [taggedCalls_nil_of_none _ _ _ _ _ _ hd] at hmem
        have hst : visitCall pkg report fn st d = st := visitCall_none _ _ _ _ _ hd
        obtain ⟨seen, rest, hb, hc⟩ := (ih st).1 hmem
        refine ⟨d :: seen, rest, by rw [hb]; rfl, ?_⟩
        rw [List.foldl_cons, hst]
        exact hc
      | some v =>
        rw [taggedCalls_cons_of_some _ _ _ _ _ _ _ hd] at hmem
        rcases List.mem_cons.1 hmem with heq | hrest
        · have h1 : c = d := (Prod.mk.inj heq).1
          have h2 : fqn = v := (Prod.mk.inj heq).2
          subst h1 h2
          exact ⟨[], ds, rfl, hd⟩
        · obtain ⟨seen, rest, hb, hc⟩ := (ih _).1 hrest
          exact ⟨d :: seen, rest, by rw [hb]; rfl, by rw [List.foldl_cons]; exact hc⟩
    · rintro ⟨seen, rest, hb, hc⟩
      cases seen with
      | nil =>
        have hcd : d = c := by
          have := congrArg List.head? hb
          simpa using this
        subst hcd
        rw [List.foldl_nil] at hc
        rw [taggedCalls_cons_of_some _ _ _ _ _ _ _ hc]
        exact List.mem_cons_self _ _
      | cons e seen' =>
        have hed : d = e := by
          have := congrArg List.head? hb
          simpa using this
        subst hed
        have hds : ds = seen' ++ c :: rest := by
          have := congrArg List.tail hb
          simpa using this
        rw [List.foldl_cons] at hc
        have hin := (ih (visitCall pkg report fn st d)).2 ⟨seen', rest, hds, hc⟩
        cases hd : calleeFact st.1 d with
        | none =>
          rw [taggedCalls_nil_of_none _ _ _ _ _ _ hd]
          rw [visitCall_none _ _ _ _ _ hd] at hin
          exact hin
        | some v =>
          rw [taggedCalls_cons_of_some _ _ _ _ _ _ _ hd]
          exact List.mem_cons_of_mem _ hin

/-- Without reporting, visiting a body leaves the diagnostics as they were. -/
theorem body_fold_diagnostics_silent (pkg : Package) (fn : FuncDecl) (body : List CallExpr)
    (st : Pass × Bool) :
    (body.foldl (visitCall pkg false fn) st).1.diagnostics = st.1.diagnostics := by
  induction body generalizing st with
  | nil => rfl
  | cons c cs ih =>
    rw [List.foldl_cons, ih]
    cases h : calleeFact st.1 c with
    | none => rw [visitCall_none _ _ _ _ _ h]
    | some fqn => rw [visitCall_some _ _ _ _ _ _ h]; rfl

theorem decls_fold_diagnostics_silent (pkg : Package) (l : List FuncDecl) (st : Pass × Bool) :
    (l.foldl (visitDecl pkg false) st).1.diagnostics = st.1.diagnostics := by
  induction l generalizing st with
  | nil => rfl
  | cons fn fns ih =>
    rw [List.foldl_cons, ih]
    exact body_fold_diagnostics_silent pkg fn fn.body st

theorem runCallers_diagnostics (pkg : Package) (report : Bool) (pass : Pass) :
    (runCallers pkg report pass).diagnostics =
      (pkg.decls.foldl (visitDecl pkg report) (pass, false)).1.diagnostics := by
  unfold runCallers
  dsimp only
  split <;> rfl

theorem runCallers_silent (pkg : Package) (pass : Pass) :
    (runCallers pkg false pass).diagnostics = pass.diagnostics := by
  rw [runCallers_diagnostics]
  exact decls_fold_diagnostics_silent pkg pkg.decls (pass, false)

/-- With reporting, visiting a body adds one diagnostic per tagged call, in order. -/
theorem body_fold_diagnostics_report (pkg : Package) (fn : FuncDecl) (body : List CallExpr)
    (st : Pass × Bool) :
    (body.foldl (visitCall pkg true fn) st).1.diagnostics =
      st.1.diagnostics ++ (taggedCalls pkg true fn st body).map diagnosticOf := by
  induction body generalizing st with
  | nil => simp [taggedCalls]
  | cons c cs ih =>
    rw [List.foldl_cons, ih]
    cases h : calleeFact st.1 c with
    | none =>
      rw [taggedCalls_nil_of_none _ _ _ _ _ _ h, visitCall_none _ _ _ _ _ h]
    | some fqn =>
      rw [taggedCalls_cons_of_some _ _ _ _ _ _ _ h, visitCall_some _ _ _ _ _ _ h]
      simp [Reportf, ExportObjectFact, diagnosticOf]

theorem decls_fold_diagnostics_report (pkg : Package) (l : List FuncDecl) (st : Pass × Bool) :
    (l.foldl (visitDecl pkg true) st).1.diagnostics =
      st.1.diagnostics ++ (taggedCallsOfUnit pkg true st l).map diagnosticOf := by
  induction l generalizing st with
  | nil => simp [taggedCallsOfUnit]
  | cons fn fns ih =>
    rw [List.foldl_cons, ih, taggedCallsOfUnit, List.map_append, ← List.append_assoc]
    congr 1
    exact body_fold_diagnostics_report pkg fn fn.body st

theorem runCallers_report (pkg : Package) (pass : Pass) :
    (runCallers pkg true pass).diagnostics =
      pass.diagnostics ++
        (taggedCallsOfUnit pkg true (pass, false) pkg.decls).map diagnosticOf := by
  rw [runCallers_diagnostics]
  exact decls_fold_diagnostics_report pkg pkg.decls (pass, false)

/-- Below the root of the namespace no diagnostic is reported: for every unit whose
path starts with `github.com/vmware/govmomi/` and is not the binding layer, and
for every content of the fact store, the pass of `run` returns and has reported
no diagnostic. -/
theorem run_library_no_diagnostic (data : Db) (pkg : Package) (s : Facts)
    (hlib : HasPrefix pkg.path (vmomiPackage ++ "/") = true)
    (hpath : pkg.path ≠ methodsPkgPath) :
    ∃ p, run data pkg (freshPass s) = some p ∧ p.diagnostics = [] := by
  have hb : (pkg.path == methodsPkgPath) = false := by simpa using hpath
  unfold run
  simp only [hb, Bool.false_eq_true, if_false, hlib, if_true]
  cases interesting pkg (freshPass s)
  · exact ⟨freshPass s, rfl, rfl⟩
  · exact ⟨runCallers pkg false (freshPass s), rfl, runCallers_silent pkg (freshPass s)⟩

/-- C7 (diagnostic shape and count).  For a consumer unit that passes the Interest
Filter, the pass is `runCallers` with reporting, and its diagnostics are, in visit
order, one per call site whose target carried an `isDeprecated` fact when visited:
the position is the position of the call and the message is
`deprecated API detected: ` followed by the `FQN` of that fact. -/
theorem run_consumer_diagnostics (data : Db) (pkg : Package) (s : Facts)
    (hpath : pkg.path ≠ methodsPkgPath)
    (hcons : HasPrefix pkg.path (vmomiPackage ++ "/") = false)
    (hint : ∃ imp ∈ pkg.imports, ImportPackageFact (freshPass s) imp = true) :
    run data pkg (freshPass s) = some (runCallers pkg true (freshPass s)) ∧
      (runCallers pkg true (freshPass s)).diagnostics =
        (taggedCallsOfUnit pkg true (freshPass s, false) pkg.decls).map
          (fun e => (⟨e.1.pos, "deprecated API detected: " ++ e.2⟩ : Diagnostic)) := by
  have hb : (pkg.path == methodsPkgPath) = false := by simpa using hpath
  have hi : interesting pkg (freshPass s) = true := (interesting_iff _ _).2 hint
  constructor
  · unfold run
    simp [hb, hi, hcons]
  · rw [runCallers_report]
    rfl

theorem run_library_no_diagnostic_witness :
    ∃ p, run scenarioDb scenarioLibrary (freshPass scenarioFactsMethods) = some p ∧
      p.diagnostics = [] :=
  run_library_no_diagnostic scenarioDb scenarioLibrary scenarioFactsMethods
    (by decide) (by decide)

theorem run_consumer_diagnostics_witness :
    run scenarioDb scenarioConsumer (freshPass scenarioFactsLibrary) =
        some (runCallers scenarioConsumer true (freshPass scenarioFactsLibrary)) ∧
      (runCallers scenarioConsumer true (freshPass scenarioFactsLibrary)).diagnostics =
        (taggedCallsOfUnit scenarioConsumer true (freshPass scenarioFactsLibrary, false)
            scenarioConsumer.decls).map
          (fun e => (⟨e.1.pos, "deprecated API detected: " ++ e.2⟩ : Diagnostic)) :=
  run_consumer_diagnostics scenarioDb scenarioConsumer scenarioFactsLibrary
    (by decide) (by decide) (by decide)

/-! ## The unit flag -/

theorem importPackage_exportPackage (p : Pass) (q : String) :
    ImportPackageFact (ExportPackageFact p q) q = true := by
  unfold ImportPackageFact ExportPackageFact
  by_cases h : p.facts.packageFacts.contains q = true
  · simp only [h, if_true]
  · simp only [h, if_false]
    simp

/-- What one step of `runCallers` does not touch, and how its flag follows its exports. -/
theorem visitCall_frame (pkg : Package) (report : Bool) (fn : FuncDecl) (st : Pass × Bool)
    (c : CallExpr) :
    (visitCall pkg report fn st c).1.pkgExports = st.1.pkgExports ∧
    (visitCall pkg report fn st c).1.facts.packageFacts = st.1.facts.packageFacts ∧
    (visitCall pkg report fn st c).1.logs = st.1.logs ∧
    ((st.2 = true ↔ st.1.objExports ≠ []) →
      ((visitCall pkg report fn st c).2 = true ↔
        (visitCall pkg report fn st c).1.objExports ≠ [])) ∧
    ((∀ e ∈ st.1.objExports, e.1 = Defs pkg fn ∨ ∃ g ∈ pkg.decls, e.1 = Defs pkg g) →
      ∀ e ∈ (visitCall pkg report fn st c).1.objExports,
        e.1 = Defs pkg fn ∨ ∃ g ∈ pkg.decls, e.1 = Defs pkg g) := by
  cases h : calleeFact st.1 c with
  | none =>
    rw [visitCall_none _ _ _ _ _ h]
    exact ⟨rfl, rfl, rfl, id, id⟩
  | some fqn =>
    rw [visitCall_some _ _ _ _ _ _ h]
    cases report
    · refine ⟨rfl, rfl, rfl, fun _ => ?_, fun hin e he => ?_⟩
      · simp [ExportObjectFact]
      · simp only [ExportObjectFact, Bool.false_eq_true, if_false, List.mem_append,
          List.mem_singleton] at he
        rcases he with he | he
        · exact hin e he
        · left; rw [he]
    · refine ⟨rfl, rfl, rfl, fun _ => ?_, fun hin e he => ?_⟩
      · simp [ExportObjectFact, Reportf]
      · simp only [ExportObjectFact, Reportf, if_true, List.mem_append,
          List.mem_singleton] at he
        rcases he with he | he
        · exact hin e he
        · left; rw [he]

theorem body_fold_inv (pkg : Package) (report : Bool) (pass : Pass) (fn : FuncDecl)
    (hfn : fn ∈ pkg.decls) (body : List CallExpr) (st : Pass × Bool)
    (h : CallersInv pkg pass st) :
    CallersInv pkg pass (body.foldl (visitCall pkg report fn) st) := by
  induction body generalizing st with
  | nil => exact h
  | cons c cs ih =>
    rw [List.foldl_cons]
    apply ih
    obtain ⟨h1, h2, h3, h4⟩ := h
    obtain ⟨f1, f2, _, f4, f5⟩ := visitCall_frame pkg report fn st c
    refine ⟨f1.trans h1, f2.trans h2, f4 h3, ?_⟩
    intro e he
    rcases f5 (fun e he => Or.inr (h4 e he)) e he with h | h
    · exact ⟨fn, hfn, h⟩
    · exact h

theorem decls_fold_inv (pkg : Package) (report : Bool) (pass : Pass) (l : List FuncDecl)
    (hl : ∀ fn ∈ l, fn ∈ pkg.decls) (st : Pass × Bool) (h : CallersInv pkg pass st) :
    CallersInv pkg pass (l.foldl (visitDecl pkg report) st) := by
  induction l generalizing st with
  | nil => exact h
  | cons fn fns ih =>
    rw [List.foldl_cons]
    apply ih (fun g hg => hl g (List.mem_cons_of_mem _ hg))
    exact body_fold_inv pkg report pass fn (hl fn (List.mem_cons_self _ _)) fn.body st h

/-- The unit flag after `runCallers`, for a pass that has exported nothing yet. -/
theorem runCallers_flag (pkg : Package) (report : Bool) (pass : Pass)
    (hobj : pass.objExports = []) (hpkg : pass.pkgExports = [])
    (hnew : ImportPackageFact pass pkg.path = false) :
    (ImportPackageFact (runCallers pkg report pass) pkg.path = true ↔
        (runCallers pkg report pass).objExports ≠ []) ∧
    ((runCallers pkg report pass).pkgExports ≠ [] ↔
        (runCallers pkg report pass).objExports ≠ []) ∧
    ∀ e ∈ (runCallers pkg report pass).objExports, ∃ fn ∈ pkg.decls, e.1 = Defs pkg fn := by
  have hinv : CallersInv pkg pass (pkg.decls.foldl (visitDecl pkg report) (pass, false)) := by
    apply decls_fold_inv pkg report pass pkg.decls (fun _ h => h)
    refine ⟨rfl, rfl, ?_, ?_⟩
    · simp [hobj]
    · simp [hobj]
  obtain ⟨h1, h2, h3, h4⟩ := hinv
  unfold runCallers
  dsimp only
  cases hflag : (pkg.decls.foldl (visitDecl pkg report) (pass, false)).2
  · have hno : (pkg.decls.foldl (visitDecl pkg report) (pass, false)).1.objExports = [] := by
      by_contra hcon
      have := h3.2 hcon
      rw [hflag] at this
      cases this
    simp only [Bool.false_eq_true, if_false]
    refine ⟨?_, ?_, h4⟩
    · have : ImportPackageFact (pkg.decls.foldl (visitDecl pkg report) (pass, false)).1 pkg.path
          = false := by
        unfold ImportPackageFact at hnew ⊢
        rw [h2]
        exact hnew
      simp [this, hno]
    · simp [h1, hpkg, hno]
  · have hyes : (pkg.decls.foldl (visitDecl pkg report) (pass, false)).1.objExports ≠ [] :=
      h3.1 hflag
    simp only [if_true]
    refine ⟨?_, ?_, h4⟩
    · simp only [importPackage_exportPackage, true_iff]
      exact hyes
    · constructor
      · intro _; exact hyes
      · intro _; simp [ExportPackageFact]

/-- The invariant of `runMethods`: `counter` is the number of object facts exported. -/
theorem methods_fold_inv (pkg : Package) (dep : GoMap Field) (pass : Pass)
    (l : List FuncDecl) (hl : ∀ fn ∈ l, fn ∈ pkg.decls) (st : Pass × Nat)
    (h : MethodsInv pkg pass st) :
    MethodsInv pkg pass (l.foldl (methodsVisit pkg dep) st) := by
  induction l generalizing st with
  | nil => exact h
  | cons fn fns ih =>
    rw [List.foldl_cons]
    apply ih (fun g hg => hl g (List.mem_cons_of_mem _ hg))
    obtain ⟨h1, h2, h3, h4⟩ := h
    unfold methodsVisit
    cases dep.lookup fn.name with
    | none => exact ⟨h1, h2, h3, h4⟩
    | some f =>
      refine ⟨h1, h2, ?_, ?_⟩
      · simp [ExportObjectFact, h3]
      · intro e he
        simp only [ExportObjectFact, List.mem_append, List.mem_singleton] at he
        rcases he with he | he
        · exact h4 e he
        · exact ⟨fn, hl fn (List.mem_cons_self _ _), by rw [he]⟩

/-- The unit flag after `runMethods`, for a pass that has exported nothing yet. -/
theorem runMethods_flag (data : Db) (api : API) (pkg : Package) (pass : Pass)
    (hapi : GetAPI data "7.0" = some api)
    (hobj : pass.objExports = []) (hpkg : pass.pkgExports = [])
    (hnew : ImportPackageFact pass pkg.path = false) :
    ∃ p, runMethods data pkg pass = some p ∧
      (ImportPackageFact p pkg.path = true ↔ p.objExports ≠ []) ∧
      (p.pkgExports ≠ [] ↔ p.objExports ≠ []) ∧
      ∀ e ∈ p.objExports, ∃ fn ∈ pkg.decls, e.1 = Defs pkg fn := by
  have hinv : MethodsInv pkg pass
      (pkg.decls.foldl (methodsVisit pkg (GetDeprecatedMethods api)) (pass, 0)) := by
    apply methods_fold_inv pkg _ pass pkg.decls (fun _ h => h)
    refine ⟨rfl, rfl, ?_, ?_⟩
    · simp [hobj]
    · simp [hobj]
  obtain ⟨h1, h2, h3, h4⟩ := hinv
  unfold runMethods
  rw [hapi]
  refine ⟨_, rfl, ?_⟩
  dsimp only
  generalize hst : pkg.decls.foldl (methodsVisit pkg (GetDeprecatedMethods api)) (pass, 0) = st
    at h1 h2 h3 h4
  have hlog : ∀ q : Pass, (if (st.2 != (GetDeprecatedMethods api).length) = true then
      Println q "some deprecated methods are not mapped" else q).objExports = q.objExports ∧
      (if (st.2 != (GetDeprecatedMethods api).length) = true then
      Println q "some deprecated methods are not mapped" else q).pkgExports = q.pkgExports ∧
      (if (st.2 != (GetDeprecatedMethods api).length) = true then
      Println q "some deprecated methods are not mapped" else q).facts = q.facts := by
    intro q
    split <;> exact ⟨rfl, rfl, rfl⟩
  obtain ⟨l1, l2, l3⟩ := hlog st.1
  by_cases hc : st.2 = 0
  · have hno : st.1.objExports = [] := by
      have : st.1.objExports.length = 0 := by rw [← h3, hc]
      exact List.length_eq_zero.1 this
    have hc' : (st.2 != 0) = false := by simp [hc]
    simp only [hc', Bool.false_eq_true, if_false]
    refine ⟨?_, ?_, ?_⟩
    · have : ImportPackageFact (if (st.2 != (GetDeprecatedMethods api).length) = true then
          Println st.1 "some deprecated methods are not mapped" else st.1) pkg.path = false := by
        unfold ImportPackageFact at hnew ⊢
        rw [l3, h2]
        exact hnew
      rw [this, l1, hno]
      simp
    · rw [l1, l2, h1, hpkg, hno]
      simp
    · rw [l1]; exact h4
  · have hyes : st.1.objExports ≠ [] := by
      intro hnil
      apply hc
      rw [h3, hnil]
      rfl
    have hc' : (st.2 != 0) = true := by simp [hc]
    simp only [hc', if_true]
    refine ⟨?_, ?_, ?_⟩
    · simp only [importPackage_exportPackage, true_iff]
      show (ExportPackageFact _ pkg.path).objExports ≠ []
      simp only [ExportPackageFact]
      rw [l1]
      exact hyes
    · constructor
      · intro _
        simp only [ExportPackageFact]
        rw [l1]
        exact hyes
      · intro _; simp [ExportPackageFact]
    · simp only [ExportPackageFact]
      rw [l1]
      exact h4

/-- C8 (unit flag agrees with function tags).  After the pass of any unit, started
on a store in which the unit does not carry `hasDeprecated` yet, the unit carries
`hasDeprecated` exactly when the pass exported an `isDeprecated` fact; the pass
exported the package fact exactly in that case, and every object fact it
exported is on a function declared in the unit.  For the binding layer the 7.0
snapshot is loaded. -/
theorem run_unit_flag_iff_tagged (data : Db) (pkg : Package) (s : Facts)
    (hdb : pkg.path = methodsPkgPath → ∃ api, GetAPI data "7.0" = some api)
    (hnew : ImportPackageFact (freshPass s) pkg.path = false) :
    ∃ p, run data pkg (freshPass s) = some p ∧
      (ImportPackageFact p pkg.path = true ↔ p.objExports ≠ []) ∧
      (p.pkgExports ≠ [] ↔ p.objExports ≠ []) ∧
      ∀ e ∈ p.objExports, ∃ fn ∈ pkg.decls, e.1 = Defs pkg fn := by
  unfold run
  by_cases hpath : pkg.path = methodsPkgPath
  · obtain ⟨api, hapi⟩ := hdb hpath
    have hb : (pkg.path == methodsPkgPath) = true := by simpa using hpath
    simp only [hb, if_true]
    exact runMethods_flag data api pkg (freshPass s) hapi rfl rfl hnew
  · have hb : (pkg.path == methodsPkgPath) = false := by simpa using hpath
    simp only [hb, Bool.false_eq_true, if_false]
    cases hi : interesting pkg (freshPass s)
    · refine ⟨freshPass s, by simp, ?_, ?_, ?_⟩
      · rw [hnew]; simp [freshPass]
      · simp [freshPass]
      · simp [freshPass]
    · cases HasPrefix pkg.path (vmomiPackage ++ "/")
      · exact ⟨_, by simp, runCallers_flag pkg true (freshPass s) rfl rfl hnew⟩
      · exact ⟨_, by simp, runCallers_flag pkg false (freshPass s) rfl rfl hnew⟩

theorem run_unit_flag_iff_tagged_witness :
    ∃ p, run scenarioDb scenarioLibrary (freshPass scenarioFactsMethods) = some p ∧
      (ImportPackageFact p scenarioLibrary.path = true ↔ p.objExports ≠ []) ∧
      (p.pkgExports ≠ [] ↔ p.objExports ≠ []) ∧
      ∀ e ∈ p.objExports, ∃ fn ∈ scenarioLibrary.decls, e.1 = Defs scenarioLibrary fn :=
  run_unit_flag_iff_tagged scenarioDb scenarioLibrary scenarioFactsMethods
    (fun h => absurd h (by decide)) (by decide)

/-! ## The tie-break -/

theorem body_fold_untagged (pkg : Package) (report : Bool) (fn : FuncDecl)
    (body : List CallExpr) (st : Pass × Bool)
    (h : taggedCalls pkg report fn st body = []) :
    body.foldl (visitCall pkg report fn) st = st := by
  induction body generalizing st with
  | nil => rfl
  | cons c cs ih =>
    cases hc : calleeFact st.1 c with
    | none =>
      rw [taggedCalls_nil_of_none _ _ _ _ _ _ hc] at h
      rw [List.foldl_cons, visitCall_none _ _ _ _ _ hc]
      exact ih st h
    | some fqn =>
      rw [taggedCalls_cons_of_some _ _ _ _ _ _ _ hc] at h
      cases h

theorem import_visitCall_some (pkg : Package) (report : Bool) (fn : FuncDecl)
    (st : Pass × Bool) (c : CallExpr) (fqn : String) (h : calleeFact st.1 c = some fqn) :
    ImportObjectFact (visitCall pkg report fn st c).1 (Defs pkg fn) = some fqn := by
  rw [visitCall_some _ _ _ _ _ _ h]
  cases report
  · exact import_export_self _ _ _
  · exact import_export_self _ _ _

theorem import_visitCall_other (pkg : Package) (report : Bool) (fn : FuncDecl)
    (st : Pass × Bool) (c : CallExpr) (o : Obj) (ho : o ≠ Defs pkg fn) :
    ImportObjectFact (visitCall pkg report fn st c).1 o = ImportObjectFact st.1 o := by
  cases h : calleeFact st.1 c with
  | none => rw [visitCall_none _ _ _ _ _ h]
  | some fqn =>
    rw [visitCall_some _ _ _ _ _ _ h]
    cases report
    · exact import_export_ne _ _ _ _ ho
    · exact import_export_ne _ _ _ _ ho

/-- The last tagged call of a body decides the fact of the declaration. -/
theorem body_fold_last (pkg : Package) (report : Bool) (fn : FuncDecl)
    (body : List CallExpr) (st : Pass × Bool) (c : CallExpr) (fqn : String)
    (h : (taggedCalls pkg report fn st body).getLast? = some (c, fqn)) :
    ImportObjectFact (body.foldl (visitCall pkg report fn) st).1 (Defs pkg fn) = some fqn := by
  induction body generalizing st with
  | nil => simp [taggedCalls] at h
  | cons d ds ih =>
    rw [List.foldl_cons]
    cases hd : calleeFact st.1 d with
    | none =>
      rw [taggedCalls_nil_of_none _ _ _ _ _ _ hd] at h
      rw [visitCall_none _ _ _ _ _ hd]
      exact ih st h
    | some v =>
      rw [taggedCalls_cons_of_some _ _ _ _ _ _ _ hd] at h
      cases hrest : taggedCalls pkg report fn (visitCall pkg report fn st d) ds with
      | nil =>
        rw [hrest] at h
        simp only [List.getLast?_singleton, Option.some.injEq, Prod.mk.injEq] at h
        rw [body_fold_untagged _ _ _ _ _ hrest, ← h.2]
        exact import_visitCall_some _ _ _ _ _ _ hd
      | cons e es =>
        apply ih
        rw [hrest] at h ⊢
        rw [List.getLast?_cons_cons] at h
        exact h

theorem body_fold_other (pkg : Package) (report : Bool) (fn : FuncDecl)
    (body : List CallExpr) (st : Pass × Bool) (o : Obj) (ho : o ≠ Defs pkg fn) :
    ImportObjectFact (body.foldl (visitCall pkg report fn) st).1 o =
      ImportObjectFact st.1 o := by
  induction body generalizing st with
  | nil => rfl
  | cons d ds ih =>
    rw [List.foldl_cons, ih, import_visitCall_other _ _ _ _ _ _ ho]

theorem decls_fold_other (pkg : Package) (report : Bool) (l : List FuncDecl)
    (st : Pass × Bool) (o : Obj) (ho : ∀ g ∈ l, o ≠ Defs pkg g) :
    ImportObjectFact (l.foldl (visitDecl pkg report) st).1 o = ImportObjectFact st.1 o := by
  induction l generalizing st with
  | nil => rfl
  | cons g gs ih =>
    rw [List.foldl_cons, ih _ (fun g' hg' => ho g' (List.mem_cons_of_mem _ hg'))]
    exact body_fold_other pkg report g g.body st o (ho g (List.mem_cons_self _ _))

theorem runCallers_import (pkg : Package) (report : Bool) (pass : Pass) (o : Obj) :
    ImportObjectFact (runCallers pkg report pass) o =
      ImportObjectFact (pkg.decls.foldl (visitDecl pkg report) (pass, false)).1 o := by
  unfold runCallers
  dsimp only
  split <;> rfl

/-- Exporting an object fact keeps at most one fact per object. -/
theorem export_keys_nodup (p : Pass) (o : Obj) (v : String)
    (h : (p.facts.objectFacts.map Prod.fst).Nodup) :
    ((ExportObjectFact p o v).facts.objectFacts.map Prod.fst).Nodup := by
  simp only [ExportObjectFact, List.map_cons, List.nodup_cons]
  constructor
  · intro hmem
    obtain ⟨e, he, heq⟩ := List.mem_map.1 hmem
    have := (List.mem_filter.1 he).2
    simp [heq] at this
  · exact h.sublist ((List.filter_sublist _).map _)

theorem visitCall_keys_nodup (pkg : Package) (report : Bool) (fn : FuncDecl)
    (st : Pass × Bool) (c : CallExpr) (h : (st.1.facts.objectFacts.map Prod.fst).Nodup) :
    ((visitCall pkg report fn st c).1.facts.objectFacts.map Prod.fst).Nodup := by
  cases hc : calleeFact st.1 c with
  | none => rw [visitCall_none _ _ _ _ _ hc]; exact h
  | some fqn =>
    rw [visitCall_some _ _ _ _ _ _ hc]
    cases report
    · exact export_keys_nodup _ _ _ h
    · exact export_keys_nodup _ _ _ h

theorem body_fold_keys_nodup (pkg : Package) (report : Bool) (fn : FuncDecl)
    (body : List CallExpr) (st : Pass × Bool)
    (h : (st.1.facts.objectFacts.map Prod.fst).Nodup) :
    ((body.foldl (visitCall pkg report fn) st).1.facts.objectFacts.map Prod.fst).Nodup := by
  induction body generalizing st with
  | nil => exact h
  | cons d ds ih =>
    rw [List.foldl_cons]
    exact ih _ (visitCall_keys_nodup _ _ _ _ _ h)

theorem decls_fold_keys_nodup (pkg : Package) (report : Bool) (l : List FuncDecl)
    (st : Pass × Bool) (h : (st.1.facts.objectFacts.map Prod.fst).Nodup) :
    ((l.foldl (visitDecl pkg report) st).1.facts.objectFacts.map Prod.fst).Nodup := by
  induction l generalizing st with
  | nil => exact h
  | cons g gs ih =>
    rw [List.foldl_cons]
    exact ih _ (body_fold_keys_nodup pkg report g g.body st h)

theorem runCallers_keys_nodup (pkg : Package) (report : Bool) (pass : Pass)
    (h : (pass.facts.objectFacts.map Prod.fst).Nodup) :
    ((runCallers pkg report pass).facts.objectFacts.map Prod.fst).Nodup := by
  have hf := decls_fold_keys_nodup pkg report pkg.decls (pass, false) h
  unfold runCallers
  dsimp only
  split
  · exact hf
  · exact hf

/-- C6 (tie-break, last writer wins).  `runCallers` keeps at most one `isDeprecated`
fact per function, and for every declaration `fn` of the unit the fact on `fn` after
`runCallers` carries the `FQN` of the target of the last call site of the body of
`fn`, in visit order, whose target carried an `isDeprecated` fact when visited.
Distinct declarations define distinct objects. -/
theorem runCallers_last_writer_wins (pkg : Package) (report : Bool) (pass : Pass)
    (pre post : List FuncDecl) (fn : FuncDecl)
    (hobj : DistinctObjects pkg) (hd : pkg.decls = pre ++ fn :: post) :
    ((pass.facts.objectFacts.map Prod.fst).Nodup →
        ((runCallers pkg report pass).facts.objectFacts.map Prod.fst).Nodup) ∧
    ∀ c fqn,
      (taggedCalls pkg report fn (pre.foldl (visitDecl pkg report) (pass, false))
          fn.body).getLast? = some (c, fqn) →
      ImportObjectFact (runCallers pkg report pass) (Defs pkg fn) = some fqn := by
  refine ⟨runCallers_keys_nodup pkg report pass, ?_⟩
  intro c fqn hlast
  have hpost : ∀ g ∈ post, Defs pkg fn ≠ Defs pkg g := by
    intro g hg heq
    have hk : fn.key = g.key := by
      have := congrArg Obj.key heq
      simpa [Defs] using this
    unfold DistinctObjects at hobj
    rw [hd, List.map_append, List.map_cons] at hobj
    have h2 := (List.nodup_append.1 hobj).2.1
    have h3 := (List.nodup_cons.1 h2).1
    apply h3
    rw [hk]
    exact List.mem_map_of_mem _ hg
  rw [runCallers_import, hd, List.foldl_append, List.foldl_cons,
    decls_fold_other pkg report post _ _ hpost]
  exact body_fold_last pkg report fn fn.body _ c fqn hlast

theorem runCallers_last_writer_wins_witness :
    ImportObjectFact (runCallers tieUnit false (freshPass tieFacts))
      (Defs tieUnit ⟨"f", "f",
        [⟨1, some ⟨"github.com/vmware/govmomi/vim25/methods", "OpA"⟩⟩,
         ⟨2, some ⟨"github.com/vmware/govmomi/vim25/methods", "OpB"⟩⟩]⟩) = some "B" :=
  (runCallers_last_writer_wins tieUnit false (freshPass tieFacts) [] []
    ⟨"f", "f",
      [⟨1, some ⟨"github.com/vmware/govmomi/vim25/methods", "OpA"⟩⟩,
       ⟨2, some ⟨"github.com/vmware/govmomi/vim25/methods", "OpB"⟩⟩]⟩
    (by decide) rfl).2
    ⟨2, some ⟨"github.com/vmware/govmomi/vim25/methods", "OpB"⟩⟩ "B" (by decide)

/-! ## The end-to-end scenario -/

/-- C9 (end-to-end scenario).  The only deprecated method of the 7.0 snapshot is
`PowerOn`, with `FQN` `VirtualMachine.PowerOn`; the binding layer defines `PowerOn`
with no call, a library unit (any path below `github.com/vmware/govmomi/` other
than the binding layer) defines `Start`, whose body calls `PowerOn`, and a
consumer unit (any path not below `github.com/vmware/govmomi/`) has one function,
which calls `Start`.  Analysed in dependency order from the empty store, the
analysis returns, `PowerOn` and `Start` end tagged `VirtualMachine.PowerOn`, the
binding layer and the library unit get no diagnostic, and the consumer unit gets
exactly one, at the call to `Start`, with message
`deprecated API detected: VirtualMachine.PowerOn`. -/
theorem scenario_end_to_end (data : Db) (api : API) (libPath appPath : String)
    (posStart posMain : Nat)
    (h7 : GetAPI data "7.0" = some api)
    (hdep : ∀ n, ((GetDeprecatedMethods api).lookup n).map Field.FQN =
        if n = "PowerOn" then some "VirtualMachine.PowerOn" else none)
    (hlib : HasPrefix libPath (vmomiPackage ++ "/") = true)
    (hlibm : libPath ≠ methodsPkgPath)
    (happ : HasPrefix appPath (vmomiPackage ++ "/") = false) :
    ∃ s, analyse data
        [⟨methodsPkgPath, [], [⟨"PowerOn", "PowerOn", []⟩]⟩,
         ⟨libPath, [methodsPkgPath],
           [⟨"Start", "Start", [⟨posStart, some ⟨methodsPkgPath, "PowerOn"⟩⟩]⟩]⟩,
         ⟨appPath, [libPath],
           [⟨"main", "main", [⟨posMain, some ⟨libPath, "Start"⟩⟩]⟩]⟩] emptyFacts =
        some (s,
          [(methodsPkgPath, []), (libPath, []),
           (appPath, [⟨posMain, "deprecated API detected: VirtualMachine.PowerOn"⟩])]) ∧
      ImportObjectFact (freshPass s) ⟨methodsPkgPath, "PowerOn"⟩ =
        some "VirtualMachine.PowerOn" ∧
      ImportObjectFact (freshPass s) ⟨libPath, "Start"⟩ = some "VirtualMachine.PowerOn" := by
  have hf : ∃ f, (GetDeprecatedMethods api).lookup "PowerOn" = some f ∧
      f.FQN = "VirtualMachine.PowerOn" := by
    have := hdep "PowerOn"
    simp only [if_true] at this
    cases hl : (GetDeprecatedMethods api).lookup "PowerOn" with
    | none => rw [hl] at this; cases this
    | some f =>
      rw [hl] at this
      exact ⟨f, rfl, by simpa using this⟩
  obtain ⟨f, hfl, hfq⟩ := hf
  have happm : appPath ≠ methodsPkgPath := by
    intro h
    rw [h] at happ
    revert happ
    decide
  have happl : appPath ≠ libPath := by
    intro h
    rw [h, hlib] at happ
    cases happ
  have hM : ∃ p, run data ⟨methodsPkgPath, [], [⟨"PowerOn", "PowerOn", []⟩]⟩
      (freshPass emptyFacts) = some p ∧
      p.facts = ⟨[(⟨methodsPkgPath, "PowerOn"⟩, "VirtualMachine.PowerOn")], [methodsPkgPath]⟩ ∧
      p.diagnostics = [] := by
    unfold run runMethods
    simp only [beq_self_eq_true, if_true, h7, List.foldl_cons, List.foldl_nil, methodsVisit,
      hfl, hfq]
    refine ⟨_, rfl, ?_, ?_⟩
    · by_cases hlen : (0 + 1 != (GetDeprecatedMethods api).length) = true <;>
        simp [hlen, ExportPackageFact, Println, ExportObjectFact, freshPass, emptyFacts, Defs]
    · by_cases hlen : (0 + 1 != (GetDeprecatedMethods api).length) = true <;>
        simp [hlen, ExportPackageFact, Println, ExportObjectFact, freshPass, emptyFacts, Defs]
  obtain ⟨pM, hpM, hfM, hdM⟩ := hM
  have hL : ∃ p, run data ⟨libPath, [methodsPkgPath],
        [⟨"Start", "Start", [⟨posStart, some ⟨methodsPkgPath, "PowerOn"⟩⟩]⟩]⟩
      (freshPass pM.facts) = some p ∧
      p.facts = ⟨[(⟨libPath, "Start"⟩, "VirtualMachine.PowerOn"),
          (⟨methodsPkgPath, "PowerOn"⟩, "VirtualMachine.PowerOn")],
        [libPath, methodsPkgPath]⟩ ∧
      p.diagnostics = [] := by
    rw [hfM]
    have hb : (libPath == methodsPkgPath) = false := by simpa using hlibm
    simp [run, hb, interesting, ImportPackageFact, freshPass, hlib, runCallers, visitDecl,
      visitCall, ImportObjectFact, List.lookup, ExportObjectFact, ExportPackageFact, Defs,
      hlibm]
  obtain ⟨pL, hpL, hfL, hdL⟩ := hL
  have hA : ∃ p, run data ⟨appPath, [libPath],
        [⟨"main", "main", [⟨posMain, some ⟨libPath, "Start"⟩⟩]⟩]⟩
      (freshPass pL.facts) = some p ∧
      ImportObjectFact p ⟨methodsPkgPath, "PowerOn"⟩ = some "VirtualMachine.PowerOn" ∧
      ImportObjectFact p ⟨libPath, "Start"⟩ = some "VirtualMachine.PowerOn" ∧
      p.diagnostics = [⟨posMain, "deprecated API detected: VirtualMachine.PowerOn"⟩] := by
    rw [hfL]
    have hb : (appPath == methodsPkgPath) = false := by simpa using happm
    have hla : libPath ≠ appPath := fun h => happl h.symm
    have hma : methodsPkgPath ≠ appPath := fun h => happm h.symm
    have hml : methodsPkgPath ≠ libPath := fun h => hlibm h.symm
    simp [run, hb, interesting, ImportPackageFact, freshPass, happ, runCallers, visitDecl,
      visitCall, ImportObjectFact, List.lookup, ExportObjectFact, ExportPackageFact, Defs,
      Reportf, hla, hma, hml]
    constructor
    · split
      · rfl
      · split <;> rfl
    · split <;> rfl
  obtain ⟨pA, hpA, hA1, hA2, hdA⟩ := hA
  refine ⟨pA.facts, ?_, hA1, hA2⟩
  rw [analyse, hpM]
  simp only
  rw [analyse, hpL]
  simp only
  rw [analyse, hpA]
  simp only [analyse, hdM, hdL, hdA]

theorem scenario_end_to_end_witness :
    ∃ s, analyse scenarioDb
        [⟨methodsPkgPath, [], [⟨"PowerOn", "PowerOn", []⟩]⟩,
         ⟨"github.com/vmware/govmomi/object", [methodsPkgPath],
           [⟨"Start", "Start", [⟨10, some ⟨methodsPkgPath, "PowerOn"⟩⟩]⟩]⟩,
         ⟨"example.com/app", ["github.com/vmware/govmomi/object"],
           [⟨"main", "main",
             [⟨20, some ⟨"github.com/vmware/govmomi/object", "Start"⟩⟩]⟩]⟩] emptyFacts =
        some (s,
          [(methodsPkgPath, []), ("github.com/vmware/govmomi/object", []),
           ("example.com/app", [⟨20, "deprecated API detected: VirtualMachine.PowerOn"⟩])]) ∧
      ImportObjectFact (freshPass s) ⟨methodsPkgPath, "PowerOn"⟩ =
        some "VirtualMachine.PowerOn" ∧
      ImportObjectFact (freshPass s) ⟨"github.com/vmware/govmomi/object", "Start"⟩ =
        some "VirtualMachine.PowerOn" :=
  scenario_end_to_end scenarioDb scenarioApi "github.com/vmware/govmomi/object"
    "example.com/app" 10 20 (by decide)
    (by
      intro n
      rw [show GetDeprecatedMethods scenarioApi =
        [("PowerOn", ⟨"VirtualMachine.PowerOn", true⟩)] from by decide]
      by_cases h : n = "PowerOn"
      · simp [List.lookup, h]
      · have hb : (n == "PowerOn") = false := by simpa using h
        simp [List.lookup, h, hb])
    (by decide) (by decide) (by decide)

/-! ## The effect of one pass on the fact store -/

theorem importPackage_exportPackage_iff (p : Pass) (q r : String) :
    ImportPackageFact (ExportPackageFact p q) r = true ↔
      ImportPackageFact p r = true ∨ r = q := by
  unfold ImportPackageFact ExportPackageFact
  by_cases h : p.facts.packageFacts.contains q = true
  · simp only [h, if_true]
    constructor
    · intro hr; exact Or.inl hr
    · rintro (hr | hr)
      · exact hr
      · rw [hr]; exact h
  · simp only [h, if_false]
    simp
    tauto

theorem body_fold_packageFacts (pkg : Package) (report : Bool) (fn : FuncDecl)
    (body : List CallExpr) (st : Pass × Bool) :
    (body.foldl (visitCall pkg report fn) st).1.facts.packageFacts =
      st.1.facts.packageFacts := by
  induction body generalizing st with
  | nil => rfl
  | cons c cs ih =>
    rw [List.foldl_cons, ih]
    exact (visitCall_frame pkg report fn st c).2.1

theorem decls_fold_packageFacts (pkg : Package) (report : Bool) (l : List FuncDecl)
    (st : Pass × Bool) :
    (l.foldl (visitDecl pkg report) st).1.facts.packageFacts = st.1.facts.packageFacts := by
  induction l generalizing st with
  | nil => rfl
  | cons g gs ih =>
    rw [List.foldl_cons, ih]
    exact body_fold_packageFacts pkg report g g.body st

theorem runCallers_importPackage (pkg : Package) (report : Bool) (pass : Pass) (q : String) :
    ImportPackageFact (runCallers pkg report pass) q = true ↔
      ImportPackageFact pass q = true ∨
        (q = pkg.path ∧ (pkg.decls.foldl (visitDecl pkg report) (pass, false)).2 = true) := by
  have hpf := decls_fold_packageFacts pkg report pkg.decls (pass, false)
  have hsame : ImportPackageFact (pkg.decls.foldl (visitDecl pkg report) (pass, false)).1 q =
      ImportPackageFact pass q := by
    unfold ImportPackageFact
    rw [hpf]
  unfold runCallers
  dsimp only
  cases hflag : (pkg.decls.foldl (visitDecl pkg report) (pass, false)).2
  · simp only [Bool.false_eq_true, if_false, and_false, or_false]
    rw [hsame]
  · simp only [if_true, and_true]
    rw [importPackage_exportPackage_iff, hsame]

/-- An object that carries a fact keeps carrying one through a step of `runCallers`. -/
theorem visitCall_import_mono (pkg : Package) (report : Bool) (fn : FuncDecl)
    (st : Pass × Bool) (c : CallExpr) (o : Obj) (h : (ImportObjectFact st.1 o).isSome) :
    (ImportObjectFact (visitCall pkg report fn st c).1 o).isSome := by
  by_cases ho : o = Defs pkg fn
  · cases hc : calleeFact st.1 c with
    | none => rw [visitCall_none _ _ _ _ _ hc]; exact h
    | some fqn => rw [ho, import_visitCall_some _ _ _ _ _ _ hc]; rfl
  · rw [import_visitCall_other _ _ _ _ _ _ ho]; exact h

theorem body_fold_import_mono (pkg : Package) (report : Bool) (fn : FuncDecl)
    (body : List CallExpr) (st : Pass × Bool) (o : Obj)
    (h : (ImportObjectFact st.1 o).isSome) :
    (ImportObjectFact (body.foldl (visitCall pkg report fn) st).1 o).isSome := by
  induction body generalizing st with
  | nil => exact h
  | cons c cs ih =>
    rw [List.foldl_cons]
    exact ih _ (visitCall_import_mono pkg report fn st c o h)

theorem decls_fold_import_mono (pkg : Package) (report : Bool) (l : List FuncDecl)
    (st : Pass × Bool) (o : Obj) (h : (ImportObjectFact st.1 o).isSome) :
    (ImportObjectFact (l.foldl (visitDecl pkg report) st).1 o).isSome := by
  induction l generalizing st with
  | nil => exact h
  | cons g gs ih =>
    rw [List.foldl_cons]
    exact ih _ (body_fold_import_mono pkg report g g.body st o h)

/-- The flag `makeInteresting` is never reset. -/
theorem visitCall_flag_mono (pkg : Package) (report : Bool) (fn : FuncDecl)
    (st : Pass × Bool) (c : CallExpr) (h : st.2 = true) :
    (visitCall pkg report fn st c).2 = true := by
  cases hc : calleeFact st.1 c with
  | none => rw [visitCall_none _ _ _ _ _ hc]; exact h
  | some fqn => rw [visitCall_some _ _ _ _ _ _ hc]

theorem body_fold_flag_mono (pkg : Package) (report : Bool) (fn : FuncDecl)
    (body : List CallExpr) (st : Pass × Bool) (h : st.2 = true) :
    (body.foldl (visitCall pkg report fn) st).2 = true := by
  induction body generalizing st with
  | nil => exact h
  | cons c cs ih =>
    rw [List.foldl_cons]
    exact ih _ (visitCall_flag_mono pkg report fn st c h)

theorem decls_fold_flag_mono (pkg : Package) (report : Bool) (l : List FuncDecl)
    (st : Pass × Bool) (h : st.2 = true) :
    (l.foldl (visitDecl pkg report) st).2 = true := by
  induction l generalizing st with
  | nil => exact h
  | cons g gs ih =>
    rw [List.foldl_cons]
    exact ih _ (body_fold_flag_mono pkg report g g.body st h)

/-- A fact that `runCallers` adds comes with the flag `makeInteresting`. -/
theorem visitCall_new_fact (pkg : Package) (report : Bool) (pass : Pass) (fn : FuncDecl)
    (st : Pass × Bool) (c : CallExpr)
    (h : ∀ o, (ImportObjectFact st.1 o).isSome → (ImportObjectFact pass o).isSome ∨ st.2 = true) :
    ∀ o, (ImportObjectFact (visitCall pkg report fn st c).1 o).isSome →
      (ImportObjectFact pass o).isSome ∨ (visitCall pkg report fn st c).2 = true := by
  intro o ho
  cases hc : calleeFact st.1 c with
  | none =>
    rw [visitCall_none _ _ _ _ _ hc] at ho ⊢
    exact h o ho
  | some fqn =>
    right
    rw [visitCall_some _ _ _ _ _ _ hc]

theorem body_fold_new_fact (pkg : Package) (report : Bool) (pass : Pass) (fn : FuncDecl)
    (body : List CallExpr) (st : Pass × Bool)
    (h : ∀ o, (ImportObjectFact st.1 o).isSome → (ImportObjectFact pass o).isSome ∨ st.2 = true) :
    ∀ o, (ImportObjectFact (body.foldl (visitCall pkg report fn) st).1 o).isSome →
      (ImportObjectFact pass o).isSome ∨ (body.foldl (visitCall pkg report fn) st).2 = true := by
  induction body generalizing st with
  | nil => exact h
  | cons c cs ih =>
    rw [List.foldl_cons]
    exact ih _ (visitCall_new_fact pkg report pass fn st c h)

theorem decls_fold_new_fact (pkg : Package) (report : Bool) (pass : Pass) (l : List FuncDecl)
    (st : Pass × Bool)
    (h : ∀ o, (ImportObjectFact st.1 o).isSome → (ImportObjectFact pass o).isSome ∨ st.2 = true) :
    ∀ o, (ImportObjectFact (l.foldl (visitDecl pkg report) st).1 o).isSome →
      (ImportObjectFact pass o).isSome ∨ (l.foldl (visitDecl pkg report) st).2 = true := by
  induction l generalizing st with
  | nil => exact h
  | cons g gs ih =>
    rw [List.foldl_cons]
    exact ih _ (body_fold_new_fact pkg report pass g g.body st h)

theorem defs_ne_of_pkg_ne (pkg : Package) (g : FuncDecl) (o : Obj) (h : o.pkg ≠ pkg.path) :
    o ≠ Defs pkg g := by
  intro heq
  apply h
  rw [heq]
  rfl

/-- The effect of `runCallers` on the store: facts of other units are untouched,
no fact is lost, a new object fact comes with the package fact of the unit, and
the package fact of the unit is the only one that can be added. -/
theorem runCallers_effect (pkg : Package) (report : Bool) (pass : Pass) :
    (∀ o, o.pkg ≠ pkg.path →
      ImportObjectFact (runCallers pkg report pass) o = ImportObjectFact pass o) ∧
    (∀ o, (ImportObjectFact pass o).isSome →
      (ImportObjectFact (runCallers pkg report pass) o).isSome) ∧
    (∀ o, (ImportObjectFact (runCallers pkg report pass) o).isSome →
      (ImportObjectFact pass o).isSome ∨
        ImportPackageFact (runCallers pkg report pass) pkg.path = true) ∧
    (∀ q, ImportPackageFact pass q = true →
      ImportPackageFact (runCallers pkg report pass) q = true) ∧
    (∀ q, ImportPackageFact (runCallers pkg report pass) q = true →
      ImportPackageFact pass q = true ∨ q = pkg.path) := by
  refine ⟨?_, ?_, ?_, ?_, ?_⟩
  · intro o ho
    rw [runCallers_import]
    exact decls_fold_other pkg report pkg.decls _ o (fun g _ => defs_ne_of_pkg_ne pkg g o ho)
  · intro o ho
    rw [runCallers_import]
    exact decls_fold_import_mono pkg report pkg.decls _ o ho
  · intro o ho
    rw [runCallers_import] at ho
    rcases decls_fold_new_fact pkg report pass pkg.decls (pass, false)
      (fun o h => Or.inl h) o ho with h | h
    · exact Or.inl h
    · right
      exact (runCallers_importPackage pkg report pass pkg.path).2 (Or.inr ⟨rfl, h⟩)
  · intro q hq
    exact (runCallers_importPackage pkg report pass q).2 (Or.inl hq)
  · intro q hq
    rcases (runCallers_importPackage pkg report pass q).1 hq with h | h
    · exact Or.inl h
    · exact Or.inr h.1

theorem methods_fold_packageFacts (pkg : Package) (dep : GoMap Field) (l : List FuncDecl)
    (st : Pass × Nat) :
    (l.foldl (methodsVisit pkg dep) st).1.facts.packageFacts = st.1.facts.packageFacts := by
  induction l generalizing st with
  | nil => rfl
  | cons g gs ih =>
    rw [List.foldl_cons, ih]
    unfold methodsVisit
    cases dep.lookup g.name <;> rfl

theorem methodsVisit_import_mono (pkg : Package) (dep : GoMap Field) (st : Pass × Nat)
    (fn : FuncDecl) (o : Obj) (h : (ImportObjectFact st.1 o).isSome) :
    (ImportObjectFact (methodsVisit pkg dep st fn).1 o).isSome := by
  unfold methodsVisit
  cases dep.lookup fn.name with
  | none => exact h
  | some f =>
    by_cases ho : o = Defs pkg fn
    · rw [ho]
      show (ImportObjectFact (ExportObjectFact st.1 (Defs pkg fn) f.FQN) (Defs pkg fn)).isSome
      rw [import_export_self]; rfl
    · show (ImportObjectFact (ExportObjectFact st.1 (Defs pkg fn) f.FQN) o).isSome
      rw [import_export_ne _ _ _ _ ho]; exact h

theorem methods_fold_import_mono (pkg : Package) (dep : GoMap Field) (l : List FuncDecl)
    (st : Pass × Nat) (o : Obj) (h : (ImportObjectFact st.1 o).isSome) :
    (ImportObjectFact (l.foldl (methodsVisit pkg dep) st).1 o).isSome := by
  induction l generalizing st with
  | nil => exact h
  | cons g gs ih =>
    rw [List.foldl_cons]
    exact ih _ (methodsVisit_import_mono pkg dep st g o h)

theorem methods_fold_new_fact (pkg : Package) (dep : GoMap Field) (pass : Pass)
    (l : List FuncDecl) (st : Pass × Nat)
    (h : ∀ o, (ImportObjectFact st.1 o).isSome → (ImportObjectFact pass o).isSome ∨ st.2 ≠ 0) :
    ∀ o, (ImportObjectFact (l.foldl (methodsVisit pkg dep) st).1 o).isSome →
      (ImportObjectFact pass o).isSome ∨ (l.foldl (methodsVisit pkg dep) st).2 ≠ 0 := by
  induction l generalizing st with
  | nil => exact h
  | cons g gs ih =>
    rw [List.foldl_cons]
    apply ih
    intro o ho
    unfold methodsVisit at ho ⊢
    cases hl : dep.lookup g.name with
    | none => rw [hl] at ho; exact h o ho
    | some f => right; exact Nat.succ_ne_zero _

theorem runMethods_importPackage (data : Db) (api : API) (pkg : Package) (pass : Pass)
    (hapi : GetAPI data "7.0" = some api) :
    ∃ p, runMethods data pkg pass = some p ∧
      ∀ q, ImportPackageFact p q = true ↔
        ImportPackageFact pass q = true ∨
          (q = pkg.path ∧
            (pkg.decls.foldl (methodsVisit pkg (GetDeprecatedMethods api)) (pass, 0)).2 ≠ 0) := by
  unfold runMethods
  rw [hapi]
  refine ⟨_, rfl, ?_⟩
  intro q
  have hpf := methods_fold_packageFacts pkg (GetDeprecatedMethods api) pkg.decls (pass, 0)
  generalize pkg.decls.foldl (methodsVisit pkg (GetDeprecatedMethods api)) (pass, 0) = st at hpf
  have hlog : ∀ r, ImportPackageFact
      (if (st.2 != (GetDeprecatedMethods api).length) = true then
        Println st.1 "some deprecated methods are not mapped" else st.1) r =
      ImportPackageFact pass r := by
    intro r
    unfold ImportPackageFact
    split
    · show st.1.facts.packageFacts.contains r = _
      rw [hpf]
    · rw [hpf]
  by_cases hc : st.2 = 0
  · have hc' : (st.2 != 0) = false := by simp [hc]
    simp only [hc', Bool.false_eq_true, if_false, hlog]
    simp [hc]
  · have hc' : (st.2 != 0) = true := by simp [hc]
    simp only [hc', if_true, importPackage_exportPackage_iff, hlog]
    simp [hc]

/-- The effect of `runMethods` on the store, as for `runCallers`. -/
theorem runMethods_effect (data : Db) (api : API) (pkg : Package) (pass : Pass)
    (hapi : GetAPI data "7.0" = some api) :
    ∃ p, runMethods data pkg pass = some p ∧
      (∀ o, o.pkg ≠ pkg.path → ImportObjectFact p o = ImportObjectFact pass o) ∧
      (∀ o, (ImportObjectFact pass o).isSome → (ImportObjectFact p o).isSome) ∧
      (∀ o, (ImportObjectFact p o).isSome →
        (ImportObjectFact pass o).isSome ∨ ImportPackageFact p pkg.path = true) ∧
      (∀ q, ImportPackageFact pass q = true → ImportPackageFact p q = true) ∧
      (∀ q, ImportPackageFact p q = true → ImportPackageFact pass q = true ∨ q = pkg.path) := by
  obtain ⟨p, hp, himp⟩ := runMethods_import data api pkg pass hapi
  obtain ⟨p', hp', hpk⟩ := runMethods_importPackage data api pkg pass hapi
  have hpp : p' = p := by
    rw [hp] at hp'
    exact (Option.some.inj hp').symm
  subst hpp
  refine ⟨p', hp, ?_, ?_, ?_, ?_, ?_⟩
  · intro o ho
    rw [himp]
    apply methods_fold_untouched
    intro fn _ hd
    exact absurd hd.symm (defs_ne_of_pkg_ne pkg fn o ho)
  · intro o ho
    rw [himp]
    exact methods_fold_import_mono pkg _ pkg.decls _ o ho
  · intro o ho
    rw [himp] at ho
    rcases methods_fold_new_fact pkg (GetDeprecatedMethods api) pass pkg.decls (pass, 0)
      (fun o h => Or.inl h) o ho with h | h
    · exact Or.inl h
    · exact Or.inr ((hpk pkg.path).2 (Or.inr ⟨rfl, h⟩))
  · intro q hq
    exact (hpk q).2 (Or.inl hq)
  · intro q hq
    rcases (hpk q).1 hq with h | h
    · exact Or.inl h
    · exact Or.inr h.1

/-- The effect of one pass of `run` on the store.  The pass returns when the unit is
not the binding layer or the 7.0 snapshot is loaded.  Facts of other units are
untouched, no fact is lost, a new object fact comes with the package fact of the
unit, only the package fact of the unit can be added, and a unit other than the
binding layer gets it only when one of its direct imports carries it. -/
theorem run_effect (data : Db) (pkg : Package) (pass : Pass)
    (hdb : pkg.path = methodsPkgPath → ∃ api, GetAPI data "7.0" = some api) :
    ∃ p, run data pkg pass = some p ∧
      (∀ o, o.pkg ≠ pkg.path → ImportObjectFact p o = ImportObjectFact pass o) ∧
      (∀ o, (ImportObjectFact pass o).isSome → (ImportObjectFact p o).isSome) ∧
      (∀ o, (ImportObjectFact p o).isSome →
        (ImportObjectFact pass o).isSome ∨ ImportPackageFact p pkg.path = true) ∧
      (∀ q, ImportPackageFact pass q = true → ImportPackageFact p q = true) ∧
      (∀ q, ImportPackageFact p q = true → ImportPackageFact pass q = true ∨ q = pkg.path) ∧
      (pkg.path ≠ methodsPkgPath → ImportPackageFact p pkg.path = true →
        ImportPackageFact pass pkg.path = true ∨
          ∃ imp ∈ pkg.imports, ImportPackageFact pass imp = true) := by
  unfold run
  by_cases hpath : pkg.path = methodsPkgPath
  · obtain ⟨api, hapi⟩ := hdb hpath
    have hb : (pkg.path == methodsPkgPath) = true := by simpa using hpath
    simp only [hb, if_true]
    obtain ⟨p, hp, h1, h2, h3, h4, h5⟩ := runMethods_effect data api pkg pass hapi
    exact ⟨p, hp, h1, h2, h3, h4, h5, fun hne => absurd hpath hne⟩
  · have hb : (pkg.path == methodsPkgPath) = false := by simpa using hpath
    simp only [hb, Bool.false_eq_true, if_false]
    cases hi : interesting pkg pass
    · refine ⟨pass, by simp, fun _ _ => rfl, fun _ h => h, fun _ h => Or.inl h,
        fun _ h => h, fun _ h => Or.inl h, fun _ h => Or.inl h⟩
    · have hex := (interesting_iff pkg pass).1 hi
      cases HasPrefix pkg.path (vmomiPackage ++ "/")
      · obtain ⟨h1, h2, h3, h4, h5⟩ := runCallers_effect pkg true pass
        exact ⟨_, by simp, h1, h2, h3, h4, h5, fun _ _ => Or.inr hex⟩
      · obtain ⟨h1, h2, h3, h4, h5⟩ := runCallers_effect pkg false pass
        exact ⟨_, by simp, h1, h2, h3, h4, h5, fun _ _ => Or.inr hex⟩

/-! ## The whole analysis -/

theorem analyse_cons (data : Db) (u : Package) (us : List Package) (s : Facts) (p : Pass)
    (r : Facts × List (String × List Diagnostic))
    (hp : run data u (freshPass s) = some p) (hr : analyse data us p.facts = some r) :
    analyse data (u :: us) s = some (r.1, (u.path, p.diagnostics) :: r.2) := by
  rw [analyse, hp]
  simp only
  rw [hr]

theorem analyse_cons_inv (data : Db) (u : Package) (us : List Package) (s : Facts)
    (r : Facts × List (String × List Diagnostic))
    (h : analyse data (u :: us) s = some r) :
    ∃ p r', run data u (freshPass s) = some p ∧ analyse data us p.facts = some r' ∧
      r = (r'.1, (u.path, p.diagnostics) :: r'.2) := by
  rw [analyse] at h
  cases hp : run data u (freshPass s) with
  | none => rw [hp] at h; cases h
  | some p =>
    rw [hp] at h
    simp only at h
    cases hr : analyse data us p.facts with
    | none => rw [hr] at h; cases h
    | some r' =>
      rw [hr] at h
      exact ⟨p, r', rfl, hr, (Option.some.inj h).symm⟩

theorem analyse_append (data : Db) (us vs : List Package) (s : Facts)
    (r r' : Facts × List (String × List Diagnostic))
    (h1 : analyse data us s = some r) (h2 : analyse data vs r.1 = some r') :
    analyse data (us ++ vs) s = some (r'.1, r.2 ++ r'.2) := by
  induction us generalizing s r with
  | nil =>
    rw [analyse] at h1
    cases h1
    simpa using h2
  | cons u us ih =>
    obtain ⟨p, r0, hp, hr0, heq⟩ := analyse_cons_inv data u us s r h1
    subst heq
    have := ih p.facts r0 hr0 h2
    rw [List.cons_append, analyse_cons data u (us ++ vs) s p _ hp this]
    rfl

/-- The analysis of units none of which is the binding layer returns. -/
theorem analyse_total (data : Db) (us : List Package) (s : Facts)
    (h : ∀ u ∈ us, u.path ≠ methodsPkgPath) : ∃ r, analyse data us s = some r := by
  induction us generalizing s with
  | nil => exact ⟨_, rfl⟩
  | cons u us ih =>
    obtain ⟨p, hp, _⟩ := run_effect data u (freshPass s)
      (fun hm => absurd hm (h u (List.mem_cons_self _ _)))
    obtain ⟨r, hr⟩ := ih p.facts (fun v hv => h v (List.mem_cons_of_mem _ hv))
    exact ⟨_, analyse_cons data u us s p r hp hr⟩

/-- The analysis of units leaves the facts of the objects of other units as they are
and keeps the package facts. -/
theorem analyse_frame (data : Db) (us : List Package) (s : Facts)
    (r : Facts × List (String × List Diagnostic)) (h : analyse data us s = some r) :
    (∀ o, (∀ u ∈ us, u.path ≠ o.pkg) →
      ImportObjectFact (freshPass r.1) o = ImportObjectFact (freshPass s) o) ∧
    (∀ q, ImportPackageFact (freshPass s) q = true →
      ImportPackageFact (freshPass r.1) q = true) := by
  induction us generalizing s r with
  | nil =>
    rw [analyse] at h
    cases h
    exact ⟨fun _ _ => rfl, fun _ hq => hq⟩
  | cons u us ih =>
    obtain ⟨p, r0, hp, hr0, heq⟩ := analyse_cons_inv data u us s r h
    subst heq
    obtain ⟨i1, i2⟩ := ih p.facts r0 hr0
    have hdb : u.path = methodsPkgPath → ∃ api, GetAPI data "7.0" = some api := by
      intro hm
      have hb : (u.path == methodsPkgPath) = true := by simpa using hm
      unfold run at hp
      simp only [hb, if_true] at hp
      unfold runMethods at hp
      cases hapi : GetAPI data "7.0" with
      | none => rw [hapi] at hp; cases hp
      | some api => exact ⟨api, rfl⟩
    obtain ⟨p', hp', e1, _, _, e4, _, _⟩ := run_effect data u (freshPass s) hdb
    have hpp : p' = p := by
      rw [hp] at hp'
      exact (Option.some.inj hp').symm
    subst hpp
    constructor
    · intro o ho
      have h1 := i1 o (fun v hv => ho v (List.mem_cons_of_mem _ hv))
      have h2 := e1 o (fun heq => ho u (List.mem_cons_self _ _) heq.symm)
      exact h1.trans h2
    · intro q hq
      exact i2 q (e4 q hq)

/-- One pass keeps the invariant of the reachable stores. -/
theorem run_storeInv (data : Db) (u : Package) (done : List String) (s : Facts) (p : Pass)
    (hinv : StoreInv done s) (hp : run data u (freshPass s) = some p) :
    StoreInv (done ++ [u.path]) p.facts := by
  have hdb : u.path = methodsPkgPath → ∃ api, GetAPI data "7.0" = some api := by
    intro hm
    have hb : (u.path == methodsPkgPath) = true := by simpa using hm
    unfold run at hp
    simp only [hb, if_true] at hp
    unfold runMethods at hp
    cases hapi : GetAPI data "7.0" with
    | none => rw [hapi] at hp; cases hp
    | some api => exact ⟨api, rfl⟩
  obtain ⟨p', hp', e1, e2, e3, e4, e5, e6⟩ := run_effect data u (freshPass s) hdb
  have hpp : p' = p := by
    rw [hp] at hp'
    exact (Option.some.inj hp').symm
  subst hpp
  obtain ⟨i1, i2⟩ := hinv
  constructor
  · intro o ho
    by_cases hpk : o.pkg = u.path
    · rcases e3 o ho with h | h
      · exact e4 _ (i1 o h)
      · rw [hpk]; exact h
    · have : ImportObjectFact p' o = ImportObjectFact (freshPass s) o := e1 o hpk
      have ho' : (ImportObjectFact (freshPass s) o).isSome := by
        rw [← this]; exact ho
      exact e4 _ (i1 o ho')
  · intro q hq
    rcases e5 q hq with h | h
    · obtain ⟨h1, h2⟩ := i2 q h
      exact ⟨List.mem_append_left _ h1, List.mem_append_left _ h2⟩
    · subst h
      refine ⟨List.mem_append_right _ (List.mem_singleton_self _), ?_⟩
      by_cases hm : u.path = methodsPkgPath
      · rw [← hm]; exact List.mem_append_right _ (List.mem_singleton_self _)
      · rcases e6 hm hq with h | ⟨imp, _, himp⟩
        · exact List.mem_append_left _ (i2 _ h).2
        · exact List.mem_append_left _ (i2 _ himp).2

theorem analyse_storeInv (data : Db) (us : List Package) (done : List String) (s : Facts)
    (r : Facts × List (String × List Diagnostic))
    (hinv : StoreInv done s) (h : analyse data us s = some r) :
    StoreInv (done ++ us.map Package.path) r.1 := by
  induction us generalizing s r done with
  | nil =>
    rw [analyse] at h
    cases h
    simpa using hinv
  | cons u us ih =>
    obtain ⟨p, r0, hp, hr0, heq⟩ := analyse_cons_inv data u us s r h
    subst heq
    have := ih (done ++ [u.path]) p.facts r0 (run_storeInv data u done s p hinv hp) hr0
    simpa using this

theorem storeInv_empty : StoreInv [] emptyFacts := by
  constructor
  · intro o ho
    simp [ImportObjectFact, freshPass, emptyFacts] at ho
  · intro q hq
    simp [ImportPackageFact, freshPass, emptyFacts] at hq

/-! ## Transitivity across units -/

theorem body_fold_tags (pkg : Package) (report : Bool) (fn : FuncDecl) (body : List CallExpr)
    (st : Pass × Bool) (cg : CallExpr) (g : Obj) (hcg : cg ∈ body)
    (hg : cg.callee = some g) (hfact : (ImportObjectFact st.1 g).isSome) :
    (ImportObjectFact (body.foldl (visitCall pkg report fn) st).1 (Defs pkg fn)).isSome ∧
      (body.foldl (visitCall pkg report fn) st).2 = true := by
  induction body generalizing st with
  | nil => cases hcg
  | cons c cs ih =>
    rw [List.foldl_cons]
    rcases List.mem_cons.1 hcg with heq | hmem
    · subst heq
      obtain ⟨v, hv⟩ := Option.isSome_iff_exists.1 hfact
      have hc : calleeFact st.1 cg = some v := by
        unfold calleeFact
        rw [hg]
        exact hv
      constructor
      · apply body_fold_import_mono
        rw [import_visitCall_some _ _ _ _ _ _ hc]
        rfl
      · apply body_fold_flag_mono
        rw [visitCall_some _ _ _ _ _ _ hc]
    · exact ih _ hmem (visitCall_import_mono pkg report fn st c g hfact)

theorem decls_fold_tags (pkg : Package) (report : Bool) (l : List FuncDecl)
    (st : Pass × Bool) (f : FuncDecl) (cg : CallExpr) (g : Obj) (hf : f ∈ l)
    (hcg : cg ∈ f.body) (hg : cg.callee = some g)
    (hfact : (ImportObjectFact st.1 g).isSome) :
    (ImportObjectFact (l.foldl (visitDecl pkg report) st).1 (Defs pkg f)).isSome ∧
      (l.foldl (visitDecl pkg report) st).2 = true := by
  induction l generalizing st with
  | nil => cases hf
  | cons x xs ih =>
    rw [List.foldl_cons]
    rcases List.mem_cons.1 hf with heq | hmem
    · subst heq
      obtain ⟨h1, h2⟩ := body_fold_tags pkg report f f.body st cg g hcg hg hfact
      exact ⟨decls_fold_import_mono pkg report xs _ _ h1,
        decls_fold_flag_mono pkg report xs _ h2⟩
    · exact ih _ hmem (body_fold_import_mono pkg report x x.body st g hfact)

/-- After a call to `target`, later calls that go to `target`, to the function
itself or to untagged functions leave the fact of the function as it is. -/
theorem body_fold_keeps (pkg : Package) (report : Bool) (fn : FuncDecl)
    (b2 seen : List CallExpr) (st0 : Pass × Bool) (v : String) (target : Obj)
    (htp : target ≠ Defs pkg fn)
    (htarget : ImportObjectFact st0.1 target = some v)
    (hcur : ImportObjectFact (seen.foldl (visitCall pkg report fn) st0).1 (Defs pkg fn) = some v)
    (hlater : ∀ b2a c' b2b t, b2 = b2a ++ c' :: b2b → c'.callee = some t →
      t = target ∨ t = Defs pkg fn ∨
        ImportObjectFact ((seen ++ b2a).foldl (visitCall pkg report fn) st0).1 t = none) :
    ImportObjectFact ((seen ++ b2).foldl (visitCall pkg report fn) st0).1 (Defs pkg fn)
      = some v := by
  induction b2 generalizing seen with
  | nil => simpa using hcur
  | cons c' rest ih =>
    have hstep : ImportObjectFact ((seen ++ [c']).foldl (visitCall pkg report fn) st0).1
        (Defs pkg fn) = some v := by
      rw [List.foldl_append, List.foldl_cons, List.foldl_nil]
      cases hc : calleeFact (seen.foldl (visitCall pkg report fn) st0).1 c' with
      | none => rw [visitCall_none _ _ _ _ _ hc]; exact hcur
      | some w =>
        rw [import_visitCall_some _ _ _ _ _ _ hc]
        unfold calleeFact at hc
        cases ht : c'.callee with
        | none => rw [ht] at hc; cases hc
        | some t =>
          rw [ht] at hc
          simp only at hc
          rcases hlater [] c' rest t rfl ht with h | h | h
          · subst h
            rw [body_fold_other pkg report fn seen st0 t htp, htarget] at hc
            exact hc.symm
          · subst h
            rw [hcur] at hc
            exact hc.symm
          · rw [List.append_nil, hc] at h
            cases h
    have := ih (seen ++ [c']) hstep (by
      intro b2a c'' b2b t hsplit hcallee
      have := hlater (c' :: b2a) c'' b2b t (by rw [hsplit]; rfl) hcallee
      simpa using this)
    simpa using this

/-- C2 (transitivity across units).  The units `pre`, then `A`, then `mid`, then `C`
are analysed in this order from the empty store, each unit once.  A function `f`
of `A` has a resolved call to a function `g` of a directly imported unit that
carries an `isDeprecated` fact when the pass of `A` starts.  `C` lies below
`github.com/vmware/govmomi/`, imports `A` directly, and its function `h` has a
resolved call to `f`, after which every resolved call of `h` goes to `f`, to `h`
itself or to a target that carries no fact when that call is visited.  Then the
analysis returns, after the pass of `C` the function `h` carries an
`isDeprecated` fact with the `FQN` recorded on `f`, and the pass of `C` reported
no diagnostic. -/
theorem transitivity_across_units (data : Db) (pre mid : List Package) (A C : Package)
    (sA : Facts) (dA : List (String × List Diagnostic))
    (f h : FuncDecl) (cg cf : CallExpr) (g : Obj)
    (preC postC : List FuncDecl) (b1 b2 : List CallExpr)
    (hpaths : ((pre ++ A :: mid ++ [C]).map Package.path).Nodup)
    (hpre : analyse data pre emptyFacts = some (sA, dA))
    (hf : f ∈ A.decls) (hcg : cg ∈ f.body) (hg : cg.callee = some g)
    (hB : g.pkg ∈ A.imports) (hgfact : (ImportObjectFact (freshPass sA) g).isSome)
    (hlib : HasPrefix C.path (vmomiPackage ++ "/") = true)
    (hCA : A.path ∈ C.imports)
    (hobjC : DistinctObjects C)
    (hdC : C.decls = preC ++ h :: postC)
    (hbody : h.body = b1 ++ cf :: b2) (hcf : cf.callee = some (Defs A f))
    (hlater : ∀ sC0 d0, analyse data (pre ++ A :: mid) emptyFacts = some (sC0, d0) →
      ∀ b2a c' b2b t, b2 = b2a ++ c' :: b2b → c'.callee = some t →
        t = Defs A f ∨ t = Defs C h ∨
          ImportObjectFact
            (stateAt C false (freshPass sC0) preC h (b1 ++ cf :: b2a)).1 t = none) :
    ∃ sC d fqn,
      analyse data (pre ++ A :: mid ++ [C]) emptyFacts = some (sC, d ++ [(C.path, [])]) ∧
      ImportObjectFact (freshPass sC) (Defs A f) = some fqn ∧
      ImportObjectFact (freshPass sC) (Defs C h) = some fqn := by
  -- the store when the pass of `A` starts
  have hinvA : StoreInv (pre.map Package.path) sA := by
    have := analyse_storeInv data pre [] emptyFacts (sA, dA) storeInv_empty hpre
    simpa using this
  obtain ⟨iA1, iA2⟩ := hinvA
  have hBflag : ImportPackageFact (freshPass sA) g.pkg = true := iA1 g hgfact
  obtain ⟨hBdone, hMdone⟩ := iA2 _ hBflag
  -- the paths of the units
  have hnd : (pre.map Package.path ++
      (A.path :: (mid.map Package.path ++ [C.path]))).Nodup := by
    simpa using hpaths
  have hdisj := (List.nodup_append.1 hnd).2.2
  have hnd2 := (List.nodup_append.1 hnd).2.1
  have hApre : A.path ∉ pre.map Package.path :=
    fun hin => hdisj hin (List.mem_cons_self _ _)
  have hAm : A.path ≠ methodsPkgPath := fun heq => hApre (heq ▸ hMdone)
  have hmidm : ∀ u ∈ mid, u.path ≠ methodsPkgPath := by
    intro u hu heq
    apply hdisj hMdone
    rw [← heq]
    exact List.mem_cons_of_mem _ (List.mem_append_left _ (List.mem_map_of_mem _ hu))
  have hCm : C.path ≠ methodsPkgPath := by
    intro heq
    apply hdisj hMdone
    rw [← heq]
    exact List.mem_cons_of_mem _ (List.mem_append_right _ (List.mem_singleton_self _))
  have hAtail : A.path ∉ mid.map Package.path ++ [C.path] := (List.nodup_cons.1 hnd2).1
  have hAmid : ∀ u ∈ mid, u.path ≠ A.path := by
    intro u hu heq
    apply hAtail
    rw [← heq]
    exact List.mem_append_left _ (List.mem_map_of_mem _ hu)
  have hAC : A.path ≠ C.path := by
    intro heq
    apply hAtail
    rw [heq]
    exact List.mem_append_right _ (List.mem_singleton_self _)
  -- the pass of `A`
  have hintA : interesting A (freshPass sA) = true :=
    (interesting_iff _ _).2 ⟨g.pkg, hB, hBflag⟩
  have hrunA : ∃ rA, run data A (freshPass sA) = some (runCallers A rA (freshPass sA)) := by
    have hb : (A.path == methodsPkgPath) = false := by simpa using hAm
    unfold run
    simp only [hb, Bool.false_eq_true, if_false, hintA, Bool.not_true]
    cases HasPrefix A.path (vmomiPackage ++ "/")
    · exact ⟨true, rfl⟩
    · exact ⟨false, rfl⟩
  obtain ⟨rA, hrunA⟩ := hrunA
  have htagA := decls_fold_tags A rA A.decls (freshPass sA, false) f cg g hf hcg hg hgfact
  have hfA : (ImportObjectFact (runCallers A rA (freshPass sA)) (Defs A f)).isSome := by
    rw [runCallers_import]; exact htagA.1
  have hflagA : ImportPackageFact (runCallers A rA (freshPass sA)) A.path = true :=
    (runCallers_importPackage A rA (freshPass sA) A.path).2 (Or.inr ⟨rfl, htagA.2⟩)
  obtain ⟨fqn, hfqn⟩ := Option.isSome_iff_exists.1 hfA
  -- the passes of `mid`
  obtain ⟨rmid, hmid⟩ := analyse_total data mid (runCallers A rA (freshPass sA)).facts hmidm
  obtain ⟨fm1, fm2⟩ := analyse_frame data mid _ rmid hmid
  have hfC0 : ImportObjectFact (freshPass rmid.1) (Defs A f) = some fqn :=
    (fm1 (Defs A f) (fun u hu => hAmid u hu)).trans hfqn
  have hflagC0 : ImportPackageFact (freshPass rmid.1) A.path = true := fm2 _ hflagA
  have hupto : analyse data (pre ++ A :: mid) emptyFacts =
      some (rmid.1, dA ++ (A.path, (runCallers A rA (freshPass sA)).diagnostics) :: rmid.2) :=
    analyse_append data pre (A :: mid) emptyFacts (sA, dA) _ hpre
      (analyse_cons data A mid sA _ rmid hrunA hmid)
  -- the pass of `C`
  have hintC : interesting C (freshPass rmid.1) = true :=
    (interesting_iff _ _).2 ⟨A.path, hCA, hflagC0⟩
  have hrunC : run data C (freshPass rmid.1) = some (runCallers C false (freshPass rmid.1)) := by
    have hb : (C.path == methodsPkgPath) = false := by simpa using hCm
    unfold run
    simp [hb, hintC, hlib]
  have hfC : ImportObjectFact (runCallers C false (freshPass rmid.1)) (Defs A f) = some fqn := by
    rw [(runCallers_effect C false (freshPass rmid.1)).1 (Defs A f) hAC]
    exact hfC0
  have hne : Defs A f ≠ Defs C h := defs_ne_of_pkg_ne C h (Defs A f) hAC
  have hpost : ∀ x ∈ postC, Defs C h ≠ Defs C x := by
    intro x hx heq
    have hk : h.key = x.key := by
      have := congrArg Obj.key heq
      simpa [Defs] using this
    unfold DistinctObjects at hobjC
    rw [hdC, List.map_append, List.map_cons] at hobjC
    have h3 := (List.nodup_cons.1 (List.nodup_append.1 hobjC).2.1).1
    apply h3
    rw [hk]
    exact List.mem_map_of_mem _ hx
  have htarget : ImportObjectFact
      (preC.foldl (visitDecl C false) (freshPass rmid.1, false)).1 (Defs A f) = some fqn := by
    rw [decls_fold_other C false preC _ _ (fun x _ => defs_ne_of_pkg_ne C x (Defs A f) hAC)]
    exact hfC0
  have hhC : ImportObjectFact (runCallers C false (freshPass rmid.1)) (Defs C h) = some fqn := by
    rw [runCallers_import, hdC, List.foldl_append, List.foldl_cons,
      decls_fold_other C false postC _ _ hpost]
    unfold visitDecl
    rw [hbody]
    have hsplit : b1 ++ cf :: b2 = (b1 ++ [cf]) ++ b2 := by simp
    rw [hsplit]
    apply body_fold_keeps C false h b2 (b1 ++ [cf]) _ fqn (Defs A f) hne htarget
    · rw [List.foldl_append, List.foldl_cons, List.foldl_nil]
      apply import_visitCall_some
      unfold calleeFact
      rw [hcf]
      show ImportObjectFact _ (Defs A f) = some fqn
      rw [body_fold_other C false h b1 _ _ hne]
      exact htarget
    · intro b2a c' b2b t hs hcallee
      have := hlater rmid.1 _ hupto b2a c' b2b t hs hcallee
      unfold stateAt at this
      simpa using this
  -- the whole analysis
  have hlast : analyse data [C] rmid.1 =
      some ((runCallers C false (freshPass rmid.1)).facts,
        [(C.path, (runCallers C false (freshPass rmid.1)).diagnostics)]) :=
    analyse_cons data C [] rmid.1 _ (_, []) hrunC rfl
  have hall := analyse_append data (pre ++ A :: mid) [C] emptyFacts _ _ hupto hlast
  rw [runCallers_silent] at hall
  refine ⟨(runCallers C false (freshPass rmid.1)).facts,
    dA ++ (A.path, (runCallers A rA (freshPass sA)).diagnostics) :: rmid.2, fqn, ?_, hfC, hhC⟩
  have hl : pre ++ A :: mid ++ [C] = (pre ++ A :: mid) ++ [C] := by simp
  rw [hl]
  exact hall

theorem transitivity_across_units_witness :
    ∃ sC d fqn,
      analyse scenarioDb ([scenarioMethods] ++ scenarioLibrary :: [] ++ [scenarioWrapper])
          emptyFacts = some (sC, d ++ [(scenarioWrapper.path, [])]) ∧
      ImportObjectFact (freshPass sC)
          (Defs scenarioLibrary ⟨"Start", "Start",
            [⟨10, some ⟨"github.com/vmware/govmomi/vim25/methods", "PowerOn"⟩⟩]⟩) = some fqn ∧
      ImportObjectFact (freshPass sC)
          (Defs scenarioWrapper ⟨"powerOn", "powerOn",
            [⟨30, some ⟨"github.com/vmware/govmomi/object", "Start"⟩⟩]⟩) = some fqn :=
  transitivity_across_units scenarioDb [scenarioMethods] [] scenarioLibrary scenarioWrapper
    scenarioFactsMethods [("github.com/vmware/govmomi/vim25/methods", [])]
    ⟨"Start", "Start", [⟨10, some ⟨"github.com/vmware/govmomi/vim25/methods", "PowerOn"⟩⟩]⟩
    ⟨"powerOn", "powerOn", [⟨30, some ⟨"github.com/vmware/govmomi/object", "Start"⟩⟩]⟩
    ⟨10, some ⟨"github.com/vmware/govmomi/vim25/methods", "PowerOn"⟩⟩
    ⟨30, some ⟨"github.com/vmware/govmomi/object", "Start"⟩⟩
    ⟨"github.com/vmware/govmomi/vim25/methods", "PowerOn"⟩
    [] [] [] []
    (by decide) (by decide) (by decide) (by decide) rfl (by decide) (by decide) (by decide)
    (by decide) (by decide) rfl rfl rfl
    (by
      intro _ _ _ b2a c' b2b _ hs
      simp at hs)

/-! ## The seed and the enumeration order of the snapshot -/

theorem lookup_assign {α : Type} (m : GoMap α) (k n : String) (v : α) :
    List.lookup n (m.assign k v) = if n = k then some v else List.lookup n m := by
  unfold GoMap.assign
  by_cases h : n = k
  · subst h
    simp [List.lookup]
  · have hb : (n == k) = false := by simpa using h
    simp only [List.lookup, hb, h, if_false]
    exact lookup_filter_ne m k n h

theorem collect_cons (m : GoMap Field) (e : String × Field) (es : List (String × Field)) :
    collectDeprecated m (e :: es) =
      collectDeprecated (if e.2.Deprecated then m.assign e.1 e.2 else m) es := rfl

/-- A name with no deprecated entry keeps what the map held for it. -/
theorem collect_lookup_untouched (m : GoMap Field) (es : List (String × Field)) (n : String)
    (h : ∀ e ∈ es, e.1 = n → e.2.Deprecated = false) :
    List.lookup n (collectDeprecated m es) = List.lookup n m := by
  induction es generalizing m with
  | nil => rfl
  | cons e es ih =>
    rw [collect_cons, ih _ (fun e' he' => h e' (List.mem_cons_of_mem _ he'))]
    by_cases hd : e.2.Deprecated = true
    · have hne : n ≠ e.1 := by
        intro heq
        have := h e (List.mem_cons_self _ _) heq.symm
        rw [hd] at this
        cases this
      simp only [hd, if_true, lookup_assign, hne, if_false]
    · simp only [hd, Bool.false_eq_true, if_false]

/-- A name whose deprecated entries all hold the field `f` ends with `f`. -/
theorem collect_lookup_deprecated (m : GoMap Field) (es : List (String × Field))
    (n : String) (f : Field) (hmem : (n, f) ∈ es) (hf : f.Deprecated = true)
    (hall : ∀ e ∈ es, e.1 = n → e.2.Deprecated = true → e.2 = f) :
    List.lookup n (collectDeprecated m es) = some f := by
  induction es generalizing m with
  | nil => cases hmem
  | cons e es ih =>
    rw [collect_cons]
    by_cases hrest : ∃ e' ∈ es, e'.1 = n ∧ e'.2.Deprecated = true
    · obtain ⟨e', he', hn, hd⟩ := hrest
      have hf' := hall e' (List.mem_cons_of_mem _ he') hn hd
      have hin : (n, f) ∈ es := by
        have : e' = (n, f) := Prod.ext hn hf'
        rw [← this]; exact he'
      exact ih _ hin (fun e'' he'' => hall e'' (List.mem_cons_of_mem _ he''))
    · have he : e = (n, f) := by
        rcases List.mem_cons.1 hmem with h | h
        · exact h.symm
        · exact absurd ⟨(n, f), h, rfl, hf⟩ hrest
      rw [collect_lookup_untouched _ es n (by
        intro e' he' hn
        by_contra hd
        exact hrest ⟨e', he', hn, by simpa using hd⟩)]
      subst he
      simp [hf, lookup_assign]

theorem getDeprecatedMethods_eq (a : API) :
    GetDeprecatedMethods a = collectDeprecated [] (methodEntries a) := by
  unfold GetDeprecatedMethods methodEntries
  generalize ([] : GoMap Field) = m
  induction a.ManagedObjects generalizing m with
  | nil => rfl
  | cons o os ih =>
    rw [List.foldl_cons, ih, List.flatMap_cons]
    unfold collectDeprecated
    rw [List.foldl_append]

/-- The map built by `GetDeprecatedMethods` holds one entry per name. -/
theorem collect_keys_nodup (m : GoMap Field) (es : List (String × Field))
    (h : (m.map Prod.fst).Nodup) : ((collectDeprecated m es).map Prod.fst).Nodup := by
  induction es generalizing m with
  | nil => exact h
  | cons e es ih =>
    rw [collect_cons]
    apply ih
    by_cases hd : e.2.Deprecated = true
    · simp only [hd, if_true, GoMap.assign, List.map_cons, List.nodup_cons]
      constructor
      · intro hmem
        obtain ⟨x, hx, heq⟩ := List.mem_map.1 hmem
        have := (List.mem_filter.1 hx).2
        simp [heq] at this
      · exact h.sublist ((List.filter_sublist _).map _)
    · simp only [hd, Bool.false_eq_true, if_false]
      exact h

theorem mem_keys_iff_lookup {α : Type} (m : GoMap α) (n : String) :
    n ∈ m.map Prod.fst ↔ (List.lookup n m).isSome := by
  rw [List.lookup_isSome_iff]
  constructor
  · intro h
    obtain ⟨p, hp, heq⟩ := List.mem_map.1 h
    exact ⟨p, hp, by simp [heq]⟩
  · rintro ⟨p, hp, heq⟩
    have : n = p.1 := by simpa using heq
    rw [this]
    exact List.mem_map_of_mem _ hp

/-- Maps with one entry per name and the same lookups have the same length. -/
theorem length_eq_of_lookup_eq {α : Type} (m m' : GoMap α)
    (h : (m.map Prod.fst).Nodup) (h' : (m'.map Prod.fst).Nodup)
    (hl : ∀ n, List.lookup n m = List.lookup n m') : m.length = m'.length := by
  have hp : (m.map Prod.fst).Perm (m'.map Prod.fst) := by
    rw [List.perm_ext_iff_of_nodup h h']
    intro n
    rw [mem_keys_iff_lookup, mem_keys_iff_lookup, hl]
  simpa using hp.length_eq

theorem methodEntries_perm (a b : API) (h : Reenumerated a b) :
    (methodEntries a).Perm (methodEntries b) := by
  obtain ⟨l, hp, hf⟩ := h
  unfold methodEntries
  refine (hp.flatMap_right _).trans ?_
  clear hp
  generalize b.ManagedObjects = lb at hf
  induction hf with
  | nil => exact List.Perm.refl _
  | cons hab _ ih =>
    rw [List.flatMap_cons, List.flatMap_cons]
    exact hab.2.2.1.append ih

/-- When deprecated methods of the same name agree, the lookups of the map built by
`GetDeprecatedMethods`, and its length, do not depend on the enumeration order. -/
theorem getDeprecatedMethods_reenumerated (a b : API) (hre : Reenumerated a b)
    (hagree : DeprecatedNamesAgree a) :
    (∀ n, (GetDeprecatedMethods a).lookup n = (GetDeprecatedMethods b).lookup n) ∧
      (GetDeprecatedMethods a).length = (GetDeprecatedMethods b).length := by
  have hperm := methodEntries_perm a b hre
  have hlook : ∀ n, (GetDeprecatedMethods a).lookup n = (GetDeprecatedMethods b).lookup n := by
    intro n
    rw [getDeprecatedMethods_eq, getDeprecatedMethods_eq]
    by_cases hex : ∃ e ∈ methodEntries a, e.1 = n ∧ e.2.Deprecated = true
    · obtain ⟨e, he, hn, hd⟩ := hex
      have hfield : ∀ e' ∈ methodEntries a, e'.1 = n → e'.2.Deprecated = true → e'.2 = e.2 := by
        intro e' he' hn' hd'
        have hq := hagree e' he' e he hd' hd (hn'.trans hn.symm)
        cases h1 : e'.2
        cases h2 : e.2
        rw [h1] at hq hd'
        rw [h2] at hq hd
        simp only at hq hd hd'
        rw [hq, hd, hd']
      have hin : (n, e.2) ∈ methodEntries a := by
        have : e = (n, e.2) := Prod.ext hn rfl
        rw [← this]; exact he
      rw [collect_lookup_deprecated [] _ n e.2 hin hd hfield,
        collect_lookup_deprecated [] _ n e.2 (hperm.mem_iff.1 hin) hd
          (fun e' he' => hfield e' (hperm.mem_iff.2 he'))]
    · have hnone : ∀ e ∈ methodEntries a, e.1 = n → e.2.Deprecated = false := by
        intro e he hn
        by_contra hd
        exact hex ⟨e, he, hn, by simpa using hd⟩
      rw [collect_lookup_untouched [] _ n hnone,
        collect_lookup_untouched [] _ n (fun e he => hnone e (hperm.mem_iff.2 he))]
  refine ⟨hlook, ?_⟩
  apply length_eq_of_lookup_eq _ _ _ _ hlook
  · rw [getDeprecatedMethods_eq]; exact collect_keys_nodup [] _ List.nodup_nil
  · rw [getDeprecatedMethods_eq]; exact collect_keys_nodup [] _ List.nodup_nil

theorem runMethods_congr (data data' : Db) (api api' : API) (pkg : Package) (pass : Pass)
    (h7 : GetAPI data "7.0" = some api) (h7' : GetAPI data' "7.0" = some api')
    (hl : ∀ n, (GetDeprecatedMethods api).lookup n = (GetDeprecatedMethods api').lookup n)
    (hlen : (GetDeprecatedMethods api).length = (GetDeprecatedMethods api').length) :
    runMethods data pkg pass = runMethods data' pkg pass := by
  have hvisit : methodsVisit pkg (GetDeprecatedMethods api) =
      methodsVisit pkg (GetDeprecatedMethods api') := by
    funext st fn
    unfold methodsVisit
    rw [hl fn.name]
  unfold runMethods
  rw [h7, h7']
  simp only [hvisit, hlen]

theorem run_congr (data data' : Db) (api api' : API) (pkg : Package) (pass : Pass)
    (h7 : GetAPI data "7.0" = some api) (h7' : GetAPI data' "7.0" = some api')
    (hl : ∀ n, (GetDeprecatedMethods api).lookup n = (GetDeprecatedMethods api').lookup n)
    (hlen : (GetDeprecatedMethods api).length = (GetDeprecatedMethods api').length) :
    run data pkg pass = run data' pkg pass := by
  unfold run
  rw [runMethods_congr data data' api api' pkg pass h7 h7' hl hlen]

theorem analyse_congr (data data' : Db) (hrun : ∀ pkg pass, run data pkg pass = run data' pkg pass)
    (units : List Package) (s : Facts) : analyse data units s = analyse data' units s := by
  induction units generalizing s with
  | nil => rfl
  | cons u us ih =>
    rw [analyse, analyse, hrun u (freshPass s)]
    cases run data' u (freshPass s) with
    | none => rfl
    | some p => simp only [ih p.facts]

/-- C10, the enumeration order decides the seed.  `collisionApiSwapped` is
`collisionApi` with the map of managed objects enumerated in the other order; two
managed objects declare a deprecated method `Destroy`.  The pass of `runMethods`
over a binding layer that defines `Destroy` seeds `Datastore.Destroy` with the one
order and `Folder.Destroy` with the other. -/
theorem seed_depends_on_enumeration :
    Reenumerated collisionApi collisionApiSwapped ∧
    (run [("7.0", collisionApi)] collisionMethods (freshPass emptyFacts)).map
        (fun p => ImportObjectFact p ⟨"github.com/vmware/govmomi/vim25/methods", "Destroy"⟩) =
      some (some "Datastore.Destroy") ∧
    (run [("7.0", collisionApiSwapped)] collisionMethods (freshPass emptyFacts)).map
        (fun p => ImportObjectFact p ⟨"github.com/vmware/govmomi/vim25/methods", "Destroy"⟩) =
      some (some "Folder.Destroy") := by
  refine ⟨⟨collisionApiSwapped.ManagedObjects, List.Perm.swap _ _ _, ?_⟩, by decide, by decide⟩
  exact List.Forall₂.cons ⟨rfl, rfl, List.Perm.refl _, List.Perm.refl _⟩
    (List.Forall₂.cons ⟨rfl, rfl, List.Perm.refl _, List.Perm.refl _⟩ List.Forall₂.nil)

/-- C10, amended (determinism of the analysis).  Two runs of the analysis on the same
units and on the same snapshot, enumerated in whatever order, yield the same
result of every pass (facts, diagnostics and log) and of the whole analysis,
provided that deprecated methods of the same name, of whatever managed objects,
have the same `FQN`; in particular the seeded `FQN` of every name is the same. -/
theorem analysis_independent_of_enumeration (data data' : Db) (api api' : API)
    (h7 : GetAPI data "7.0" = some api) (h7' : GetAPI data' "7.0" = some api')
    (hre : Reenumerated api api') (hagree : DeprecatedNamesAgree api) :
    (∀ n, (GetDeprecatedMethods api).lookup n = (GetDeprecatedMethods api').lookup n) ∧
    (∀ pkg pass, run data pkg pass = run data' pkg pass) ∧
    ∀ units s, analyse data units s = analyse data' units s := by
  obtain ⟨hl, hlen⟩ := getDeprecatedMethods_reenumerated api api' hre hagree
  have hrun : ∀ pkg pass, run data pkg pass = run data' pkg pass :=
    fun pkg pass => run_congr data data' api api' pkg pass h7 h7' hl hlen
  exact ⟨hl, hrun, analyse_congr data data' hrun⟩

theorem analysis_independent_of_enumeration_witness :
    (∀ n, (GetDeprecatedMethods twoObjectsApi).lookup n =
        (GetDeprecatedMethods twoObjectsApiSwapped).lookup n) ∧
    (∀ pkg pass, run [("7.0", twoObjectsApi)] pkg pass =
        run [("7.0", twoObjectsApiSwapped)] pkg pass) ∧
    ∀ units s, analyse [("7.0", twoObjectsApi)] units s =
        analyse [("7.0", twoObjectsApiSwapped)] units s :=
  analysis_independent_of_enumeration [("7.0", twoObjectsApi)] [("7.0", twoObjectsApiSwapped)]
    twoObjectsApi twoObjectsApiSwapped (by decide) (by decide)
    (by
      refine ⟨[("HostSystem",
          { toField := ⟨"HostSystem", false⟩
            Methods := [("Reboot", ⟨"HostSystem.Reboot", true⟩)]
            Properties := [] }),
        ("VirtualMachine",
          { toField := ⟨"VirtualMachine", false⟩
            Methods := [("PowerOn", ⟨"VirtualMachine.PowerOn", true⟩),
                        ("Rename", ⟨"VirtualMachine.Rename", false⟩)]
            Properties := [] })], List.Perm.swap _ _ _, ?_⟩
      exact List.Forall₂.cons ⟨rfl, rfl, List.Perm.refl _, List.Perm.refl _⟩
        (List.Forall₂.cons ⟨rfl, rfl, List.Perm.swap _ _ _, List.Perm.refl _⟩
          List.Forall₂.nil))
    (by decide)

/-! ## Completeness of the diagnostics -/

/-- C4, the code at the failing input.  In the consumer unit `scenarioChain` the
function `a` calls `b`, declared after it, and `b` calls the tagged wrapper `Start`.
The target `b` of the call of `a` at position 40 reaches the deprecated
binding-layer function `PowerOn` through the resolved calls `b`, `Start`,
`PowerOn`, and the pass of the consumer unit reports the call at position 41
only: the call at position 40 gets no diagnostic, and `a` is left untagged. -/
theorem chain_call_not_reported :
    reachesIn [scenarioMethods, scenarioLibrary, scenarioChain] 2
        ⟨"example.com/app", "b"⟩ ⟨"github.com/vmware/govmomi/vim25/methods", "PowerOn"⟩ = true ∧
    ∃ s, analyse scenarioDb [scenarioMethods, scenarioLibrary, scenarioChain] emptyFacts =
        some (s,
          [("github.com/vmware/govmomi/vim25/methods", []),
           ("github.com/vmware/govmomi/object", []),
           ("example.com/app",
             [⟨41, "deprecated API detected: VirtualMachine.PowerOn"⟩])]) ∧
      ImportObjectFact (freshPass s) ⟨"github.com/vmware/govmomi/vim25/methods", "PowerOn"⟩ =
        some "VirtualMachine.PowerOn" ∧
      ImportObjectFact (freshPass s) ⟨"example.com/app", "b"⟩ = some "VirtualMachine.PowerOn" ∧
      ImportObjectFact (freshPass s) ⟨"example.com/app", "a"⟩ = none := by
  refine ⟨by decide, ⟨[(⟨"example.com/app", "b"⟩, "VirtualMachine.PowerOn"),
      (⟨"github.com/vmware/govmomi/object", "Start"⟩, "VirtualMachine.PowerOn"),
      (⟨"github.com/vmware/govmomi/vim25/methods", "PowerOn"⟩, "VirtualMachine.PowerOn")],
    ["example.com/app", "github.com/vmware/govmomi/object",
      "github.com/vmware/govmomi/vim25/methods"]⟩, ?_, ?_, ?_, ?_⟩
  · decide
  · decide
  · decide
  · decide

/-! ## Monotonic facts -/

theorem run_some_loaded (data : Db) (u : Package) (pass p : Pass)
    (hp : run data u pass = some p) :
    u.path = methodsPkgPath → ∃ api, GetAPI data "7.0" = some api := by
  intro hm
  have hb : (u.path == methodsPkgPath) = true := by simpa using hm
  unfold run at hp
  simp only [hb, if_true] at hp
  unfold runMethods at hp
  cases hapi : GetAPI data "7.0" with
  | none => rw [hapi] at hp; cases hp
  | some api => exact ⟨api, rfl⟩

/-- One pass of `run` loses no fact. -/
theorem run_mono (data : Db) (u : Package) (pass p : Pass)
    (hp : run data u pass = some p) :
    (∀ q, ImportPackageFact pass q = true → ImportPackageFact p q = true) ∧
    (∀ o, (ImportObjectFact pass o).isSome → (ImportObjectFact p o).isSome) := by
  obtain ⟨p', hp', _, e2, _, e4, _, _⟩ :=
    run_effect data u pass (run_some_loaded data u pass p hp)
  have hpp : p' = p := by
    rw [hp] at hp'
    exact (Option.some.inj hp').symm
  subst hpp
  exact ⟨e4, e2⟩

theorem analyse_mono (data : Db) (us : List Package) (s : Facts)
    (r : Facts × List (String × List Diagnostic)) (h : analyse data us s = some r) :
    (∀ q, ImportPackageFact (freshPass s) q = true →
      ImportPackageFact (freshPass r.1) q = true) ∧
    (∀ o, (ImportObjectFact (freshPass s) o).isSome →
      (ImportObjectFact (freshPass r.1) o).isSome) := by
  induction us generalizing s r with
  | nil =>
    rw [analyse] at h
    cases h
    exact ⟨fun _ hq => hq, fun _ ho => ho⟩
  | cons u us ih =>
    obtain ⟨p, r0, hp, hr0, heq⟩ := analyse_cons_inv data u us s r h
    subst heq
    obtain ⟨i1, i2⟩ := ih p.facts r0 hr0
    obtain ⟨m1, m2⟩ := run_mono data u (freshPass s) p hp
    exact ⟨fun q hq => i1 q (m1 q hq), fun o ho => i2 o (m2 o ho)⟩

theorem analyse_append_inv (data : Db) (us vs : List Package) (s : Facts)
    (r : Facts × List (String × List Diagnostic))
    (h : analyse data (us ++ vs) s = some r) :
    ∃ r1 r2, analyse data us s = some r1 ∧ analyse data vs r1.1 = some r2 ∧ r.1 = r2.1 := by
  induction us generalizing s r with
  | nil => exact ⟨(s, []), r, rfl, by simpa using h, rfl⟩
  | cons u us ih =>
    rw [List.cons_append] at h
    obtain ⟨p, r0, hp, hr0, heq⟩ := analyse_cons_inv data u (us ++ vs) s r h
    obtain ⟨r1, r2, h1, h2, h3⟩ := ih p.facts r0 hr0
    refine ⟨_, r2, analyse_cons data u us s p r1 hp h1, h2, ?_⟩
    rw [heq]
    exact h3

/-- C16 (monotonic facts).  Along every sequence of passes of `run`, over units in
any order and from any store: a unit that carries `hasDeprecated` in the state
reached after the passes `us1` carries it in the state reached after any further
passes `us2`, and a function that carries an `isDeprecated` fact after `us1`
carries one after `us2`.  The operations of a pass lose no fact either:
exporting an object fact, exporting a package fact, reporting and logging keep
every package fact and keep a fact on every object that had one. -/
theorem facts_monotone (data : Db) (us1 us2 : List Package) (s : Facts)
    (r1 r2 : Facts × List (String × List Diagnostic))
    (h1 : analyse data us1 s = some r1) (h2 : analyse data (us1 ++ us2) s = some r2) :
    ((∀ q, ImportPackageFact (freshPass r1.1) q = true →
        ImportPackageFact (freshPass r2.1) q = true) ∧
      (∀ o, (ImportObjectFact (freshPass r1.1) o).isSome →
        (ImportObjectFact (freshPass r2.1) o).isSome)) ∧
    (∀ (p : Pass) (o o' : Obj) (fqn : String) (q q' : String) (pos : Nat) (msg : String),
      ((ImportObjectFact p o').isSome →
        (ImportObjectFact (ExportObjectFact p o fqn) o').isSome ∧
        (ImportObjectFact (ExportPackageFact p q) o').isSome ∧
        (ImportObjectFact (Reportf p pos fqn) o').isSome ∧
        (ImportObjectFact (Println p msg) o').isSome) ∧
      (ImportPackageFact p q' = true →
        ImportPackageFact (ExportObjectFact p o fqn) q' = true ∧
        ImportPackageFact (ExportPackageFact p q) q' = true ∧
        ImportPackageFact (Reportf p pos fqn) q' = true ∧
        ImportPackageFact (Println p msg) q' = true)) := by
  constructor
  · obtain ⟨r1', r2', ha, hb, hc⟩ := analyse_append_inv data us1 us2 s r2 h2
    have : r1' = r1 := by
      rw [h1] at ha
      exact (Option.some.inj ha).symm
    subst this
    rw [hc]
    exact analyse_mono data us2 r1'.1 r2' hb
  · intro p o o' fqn q q' pos msg
    constructor
    · intro ho
      refine ⟨?_, ho, ho, ho⟩
      by_cases heq : o' = o
      · rw [heq, import_export_self]; rfl
      · rw [import_export_ne _ _ _ _ heq]; exact ho
    · intro hq
      exact ⟨hq, (importPackage_exportPackage_iff p q q').2 (Or.inl hq), hq, hq⟩

theorem facts_monotone_witness :
    ((∀ q, ImportPackageFact (freshPass scenarioFactsMethods) q = true →
        ImportPackageFact (freshPass scenarioFactsLibrary) q = true) ∧
      (∀ o, (ImportObjectFact (freshPass scenarioFactsMethods) o).isSome →
        (ImportObjectFact (freshPass scenarioFactsLibrary) o).isSome)) ∧
    (∀ (p : Pass) (o o' : Obj) (fqn : String) (q q' : String) (pos : Nat) (msg : String),
      ((ImportObjectFact p o').isSome →
        (ImportObjectFact (ExportObjectFact p o fqn) o').isSome ∧
        (ImportObjectFact (ExportPackageFact p q) o').isSome ∧
        (ImportObjectFact (Reportf p pos fqn) o').isSome ∧
        (ImportObjectFact (Println p msg) o').isSome) ∧
      (ImportPackageFact p q' = true →
        ImportPackageFact (ExportObjectFact p o fqn) q' = true ∧
        ImportPackageFact (ExportPackageFact p q) q' = true ∧
        ImportPackageFact (Reportf p pos fqn) q' = true ∧
        ImportPackageFact (Println p msg) q' = true)) :=
  facts_monotone scenarioDb [scenarioMethods] [scenarioLibrary] emptyFacts
    (scenarioFactsMethods, [("github.com/vmware/govmomi/vim25/methods", [])])
    (scenarioFactsLibrary,
      [("github.com/vmware/govmomi/vim25/methods", []), ("github.com/vmware/govmomi/object", [])])
    (by decide) (by decide)

/-! ## Unresolved calls -/

theorem visitCall_unresolved (pkg : Package) (report : Bool) (fn : FuncDecl)
    (st : Pass × Bool) (c : CallExpr) (h : c.callee = none) :
    visitCall pkg report fn st c = st := by
  unfold visitCall
  rw [h]

theorem visitCall_dropUnresolved (pkg : Package) (report : Bool) (fn : FuncDecl) :
    visitCall pkg.dropUnresolved report fn.dropUnresolved = visitCall pkg report fn := by
  funext st c
  rfl

theorem body_fold_filter_resolved (pkg : Package) (report : Bool) (fn : FuncDecl)
    (body : List CallExpr) (st : Pass × Bool) :
    (body.filter (fun c => c.callee.isSome)).foldl (visitCall pkg report fn) st =
      body.foldl (visitCall pkg report fn) st := by
  induction body generalizing st with
  | nil => rfl
  | cons c cs ih =>
    cases hc : c.callee with
    | none =>
      rw [List.filter_cons_of_neg (by simp [hc]), List.foldl_cons,
        visitCall_unresolved pkg report fn st c hc]
      exact ih st
    | some t =>
      rw [List.filter_cons_of_pos (by simp [hc]), List.foldl_cons, List.foldl_cons]
      exact ih _

theorem visitDecl_dropUnresolved (pkg : Package) (report : Bool) (st : Pass × Bool)
    (fn : FuncDecl) :
    visitDecl pkg.dropUnresolved report st fn.dropUnresolved = visitDecl pkg report st fn := by
  unfold visitDecl
  rw [visitCall_dropUnresolved]
  exact body_fold_filter_resolved pkg report fn fn.body st

theorem decls_fold_dropUnresolved (pkg : Package) (report : Bool) (l : List FuncDecl)
    (st : Pass × Bool) :
    (l.map FuncDecl.dropUnresolved).foldl (visitDecl pkg.dropUnresolved report) st =
      l.foldl (visitDecl pkg report) st := by
  induction l generalizing st with
  | nil => rfl
  | cons fn fns ih =>
    rw [List.map_cons, List.foldl_cons, List.foldl_cons, visitDecl_dropUnresolved]
    exact ih _

/-- C12 (unresolved calls are skipped).  Visiting a call site whose callee is not
resolved leaves the state of `runCallers` as it is (no object fact, no package
fact, no diagnostic) and the traversal goes on: the pass that `runCallers` returns,
with its facts, exports and diagnostics, is the one it returns for the same unit
with all unresolved call sites removed. -/
theorem runCallers_skips_unresolved (pkg : Package) (report : Bool) (pass : Pass) :
    (∀ (fn : FuncDecl) (st : Pass × Bool) (c : CallExpr), c.callee = none →
      visitCall pkg report fn st c = st) ∧
    runCallers pkg report pass = runCallers pkg.dropUnresolved report pass := by
  refine ⟨fun fn st c h => visitCall_unresolved pkg report fn st c h, ?_⟩
  unfold runCallers
  have h := decls_fold_dropUnresolved pkg report pkg.decls (pass, false)
  have hd : pkg.dropUnresolved.decls = pkg.decls.map FuncDecl.dropUnresolved := rfl
  have hp : pkg.dropUnresolved.path = pkg.path := rfl
  rw [hd, h, hp]

/-! ## The consistency warning -/

theorem methods_fold_counter (pkg : Package) (dep : GoMap Field) (l : List FuncDecl)
    (st : Pass × Nat) :
    (l.foldl (methodsVisit pkg dep) st).2 =
      st.2 + (l.filter (fun fn => (dep.lookup fn.name).isSome)).length := by
  induction l generalizing st with
  | nil => rfl
  | cons fn fns ih =>
    rw [List.foldl_cons, ih]
    unfold methodsVisit
    cases h : dep.lookup fn.name with
    | none =>
      rw [List.filter_cons_of_neg (by simp [h])]
    | some f =>
      rw [List.filter_cons_of_pos (by simp [h])]
      simp only [List.length_cons]
      omega

theorem methods_fold_logs (pkg : Package) (dep : GoMap Field) (l : List FuncDecl)
    (st : Pass × Nat) :
    (l.foldl (methodsVisit pkg dep) st).1.logs = st.1.logs := by
  induction l generalizing st with
  | nil => rfl
  | cons fn fns ih =>
    rw [List.foldl_cons, ih]
    unfold methodsVisit
    cases dep.lookup fn.name <;> rfl

/-- C11 (the consistency warning is not fatal).  With the 7.0 snapshot loaded,
`runMethods` returns; it logs `some deprecated methods are not mapped`, once, exactly
when the number of matched function declarations differs from the number of
entries of `GetDeprecatedMethods()`, and logs nothing otherwise; in both cases the
fact store, the exported object facts, the exported package facts and the
diagnostics are those of `runMethods` without the check. -/
theorem runMethods_warning_not_fatal (data : Db) (api : API) (pkg : Package) (pass : Pass)
    (hapi : GetAPI data "7.0" = some api) :
    ∃ p q, runMethods data pkg pass = some p ∧ runMethodsUnchecked data pkg pass = some q ∧
      q.logs = pass.logs ∧
      p.logs = pass.logs ++
        (if matchedDecls pkg (GetDeprecatedMethods api) ≠ (GetDeprecatedMethods api).length
          then ["some deprecated methods are not mapped"] else []) ∧
      p.facts = q.facts ∧ p.objExports = q.objExports ∧ p.pkgExports = q.pkgExports ∧
      p.diagnostics = q.diagnostics := by
  have hcount := methods_fold_counter pkg (GetDeprecatedMethods api) pkg.decls (pass, 0)
  have hlogs := methods_fold_logs pkg (GetDeprecatedMethods api) pkg.decls (pass, 0)
  unfold runMethods runMethodsUnchecked
  rw [hapi]
  refine ⟨_, _, rfl, rfl, ?_⟩
  simp only [Nat.zero_add] at hcount
  change _ = matchedDecls pkg (GetDeprecatedMethods api) at hcount
  generalize pkg.decls.foldl (methodsVisit pkg (GetDeprecatedMethods api)) (pass, 0) = st
    at hcount hlogs
  simp only at hlogs
  rw [← hcount]
  cases hz : (st.2 != 0) <;> cases hl : (st.2 != (GetDeprecatedMethods api).length)
  · have hl' : st.2 = (GetDeprecatedMethods api).length := by simpa using hl
    rw [if_neg (not_not.2 hl')]
    simp [hlogs]
  · have hl' : st.2 ≠ (GetDeprecatedMethods api).length := by simpa using hl
    rw [if_pos hl']
    simp [hlogs, Println]
  · have hl' : st.2 = (GetDeprecatedMethods api).length := by simpa using hl
    rw [if_neg (not_not.2 hl')]
    simp [hlogs, ExportPackageFact]
  · have hl' : st.2 ≠ (GetDeprecatedMethods api).length := by simpa using hl
    rw [if_pos hl']
    simp [hlogs, Println, ExportPackageFact]

theorem runMethods_warning_not_fatal_witness :
    ∃ p q, runMethods scenarioDb scenarioMethodsTwo (freshPass emptyFacts) = some p ∧
      runMethodsUnchecked scenarioDb scenarioMethodsTwo (freshPass emptyFacts) = some q ∧
      q.logs = (freshPass emptyFacts).logs ∧
      p.logs = (freshPass emptyFacts).logs ++
        (if matchedDecls scenarioMethodsTwo (GetDeprecatedMethods scenarioApi) ≠
            (GetDeprecatedMethods scenarioApi).length
          then ["some deprecated methods are not mapped"] else []) ∧
      p.facts = q.facts ∧ p.objExports = q.objExports ∧ p.pkgExports = q.pkgExports ∧
      p.diagnostics = q.diagnostics :=
  runMethods_warning_not_fatal scenarioDb scenarioApi scenarioMethodsTwo (freshPass emptyFacts)
    (by decide)

/-! ## The maps of deprecated methods and properties -/

theorem collect_append (m : GoMap Field) (es fs : List (String × Field)) :
    collectDeprecated m (es ++ fs) = collectDeprecated (collectDeprecated m es) fs := by
  unfold collectDeprecated
  rw [List.foldl_append]

theorem collect_flatMap {α : Type} (g : α → GoMap Field) (l : List α) (m : GoMap Field) :
    l.foldl (fun acc o => collectDeprecated acc (g o)) m = collectDeprecated m (l.flatMap g) := by
  induction l generalizing m with
  | nil => rfl
  | cons o os ih =>
    rw [List.foldl_cons, ih, List.flatMap_cons, collect_append]

/-- An entry of the collected map was in the map before or is a deprecated entry
of the list. -/
theorem collect_mem (m : GoMap Field) (es : List (String × Field)) (e : String × Field)
    (h : e ∈ collectDeprecated m es) : e ∈ m ∨ (e ∈ es ∧ e.2.Deprecated = true) := by
  induction es generalizing m with
  | nil => exact Or.inl h
  | cons x xs ih =>
    rw [collect_cons] at h
    rcases ih _ h with h1 | h1
    · by_cases hd : x.2.Deprecated = true
      · simp only [hd, if_true, GoMap.assign, List.mem_cons] at h1
        rcases h1 with h2 | h2
        · right
          have hx : e = x := by rw [h2]
          exact ⟨by rw [hx]; exact List.mem_cons_self _ _, by rw [hx]; exact hd⟩
        · exact Or.inl (List.mem_filter.1 h2).1
      · simp only [hd, Bool.false_eq_true, if_false] at h1
        exact Or.inl h1
    · exact Or.inr ⟨List.mem_cons_of_mem _ h1.1, h1.2⟩

theorem assign_keys_mono {α : Type} (m : GoMap α) (k n : String) (v : α)
    (h : n ∈ m.map Prod.fst) : n ∈ (m.assign k v).map Prod.fst := by
  rw [mem_keys_iff_lookup] at h ⊢
  rw [lookup_assign]
  split
  · rfl
  · exact h

theorem collect_keys_mono (m : GoMap Field) (es : List (String × Field)) (n : String)
    (h : n ∈ m.map Prod.fst) : n ∈ (collectDeprecated m es).map Prod.fst := by
  induction es generalizing m with
  | nil => exact h
  | cons x xs ih =>
    rw [collect_cons]
    apply ih
    split
    · exact assign_keys_mono m _ n _ h
    · exact h

theorem collect_keys_of_deprecated (m : GoMap Field) (es : List (String × Field))
    (e : String × Field) (he : e ∈ es) (hd : e.2.Deprecated = true) :
    e.1 ∈ (collectDeprecated m es).map Prod.fst := by
  induction es generalizing m with
  | nil => cases he
  | cons x xs ih =>
    rw [collect_cons]
    rcases List.mem_cons.1 he with h | h
    · subst h
      apply collect_keys_mono
      simp only [hd, if_true, GoMap.assign, List.map_cons, List.mem_cons, true_or]
    · exact ih _ h

/-- The keys and the entries of the map collected from a list of entries. -/
theorem collect_spec (es : List (String × Field)) :
    (∀ n, n ∈ (collectDeprecated [] es).map Prod.fst ↔
      ∃ f, (n, f) ∈ es ∧ f.Deprecated = true) ∧
    (∀ e ∈ collectDeprecated [] es, e ∈ es ∧ e.2.Deprecated = true) ∧
    ((collectDeprecated [] es).map Prod.fst).Nodup := by
  refine ⟨?_, ?_, collect_keys_nodup [] es List.nodup_nil⟩
  · intro n
    constructor
    · intro h
      obtain ⟨e, he, hn⟩ := List.mem_map.1 h
      rcases collect_mem [] es e he with h1 | h1
      · cases h1
      · refine ⟨e.2, ?_, h1.2⟩
        rw [← hn]
        exact h1.1
    · rintro ⟨f, hf, hd⟩
      exact collect_keys_of_deprecated [] es (n, f) hf hd
  · intro e he
    rcases collect_mem [] es e he with h1 | h1
    · cases h1
    · exact h1

/-- C13 (`GetDeprecatedMethods`).  For every `API` value: a name is a key of the
result exactly when some managed object has a method of that name whose
`Deprecated` flag is true; every entry of the result has `Deprecated = true` and is
a method entry stored under that name in some managed object; the result holds
one entry per name; and it is determined by the method maps of the managed
objects alone, so properties, data objects, enums and faults do not contribute. -/
theorem getDeprecatedMethods_spec (a : API) :
    (∀ n, n ∈ (GetDeprecatedMethods a).map Prod.fst ↔
      ∃ o ∈ a.ManagedObjects, ∃ f, (n, f) ∈ o.2.Methods ∧ f.Deprecated = true) ∧
    (∀ e ∈ GetDeprecatedMethods a,
      e.2.Deprecated = true ∧ ∃ o ∈ a.ManagedObjects, e ∈ o.2.Methods) ∧
    ((GetDeprecatedMethods a).map Prod.fst).Nodup ∧
    (∀ b : API,
      b.ManagedObjects.map (fun o => o.2.Methods) =
        a.ManagedObjects.map (fun o => o.2.Methods) →
      GetDeprecatedMethods b = GetDeprecatedMethods a) := by
  obtain ⟨h1, h2, h3⟩ := collect_spec (methodEntries a)
  rw [getDeprecatedMethods_eq]
  refine ⟨?_, ?_, h3, ?_⟩
  · intro n
    rw [h1 n]
    constructor
    · rintro ⟨f, hf, hd⟩
      obtain ⟨o, ho, hin⟩ := List.mem_flatMap.1 hf
      exact ⟨o, ho, f, hin, hd⟩
    · rintro ⟨o, ho, f, hin, hd⟩
      exact ⟨f, List.mem_flatMap.2 ⟨o, ho, hin⟩, hd⟩
  · intro e he
    obtain ⟨hin, hd⟩ := h2 e he
    obtain ⟨o, ho, hm⟩ := List.mem_flatMap.1 hin
    exact ⟨hd, o, ho, hm⟩
  · intro b hb
    rw [getDeprecatedMethods_eq]
    have : methodEntries b = methodEntries a := by
      unfold methodEntries
      rw [List.flatMap_def, List.flatMap_def, hb]
    rw [this]

theorem getDeprecatedProperties_eq (a : API) :
    GetDeprecatedProperties a = collectDeprecated [] (propertyEntries a) := by
  unfold GetDeprecatedProperties propertyEntries
  simp only [collect_flatMap, collect_append]

/-- C14 (`GetDeprecatedProperties`).  For every `API` value: a name is a key of the
result exactly when it names a deprecated property of some managed object, a
deprecated property of some data object, a deprecated constant of some enum or a
deprecated property of some fault; every entry of the result has
`Deprecated = true` and is such an entry; the result holds one entry per name; and
it is determined by the property maps of the managed objects, the data objects,
the enums and the faults, so the methods do not contribute. -/
theorem getDeprecatedProperties_spec (a : API) :
    (∀ n, n ∈ (GetDeprecatedProperties a).map Prod.fst ↔
      (∃ o ∈ a.ManagedObjects, ∃ f, (n, f) ∈ o.2.Properties ∧ f.Deprecated = true) ∨
      (∃ o ∈ a.DataObjects, ∃ f, (n, f) ∈ o.2.Properties ∧ f.Deprecated = true) ∨
      (∃ o ∈ a.Enums, ∃ f, (n, f) ∈ o.2.Constants ∧ f.Deprecated = true) ∨
      (∃ o ∈ a.Faults, ∃ f, (n, f) ∈ o.2.Properties ∧ f.Deprecated = true)) ∧
    (∀ e ∈ GetDeprecatedProperties a,
      e.2.Deprecated = true ∧
        ((∃ o ∈ a.ManagedObjects, e ∈ o.2.Properties) ∨
         (∃ o ∈ a.DataObjects, e ∈ o.2.Properties) ∨
         (∃ o ∈ a.Enums, e ∈ o.2.Constants) ∨
         (∃ o ∈ a.Faults, e ∈ o.2.Properties))) ∧
    ((GetDeprecatedProperties a).map Prod.fst).Nodup ∧
    (∀ b : API,
      b.ManagedObjects.map (fun o => o.2.Properties) =
        a.ManagedObjects.map (fun o => o.2.Properties) →
      b.DataObjects = a.DataObjects → b.Enums = a.Enums → b.Faults = a.Faults →
      GetDeprecatedProperties b = GetDeprecatedProperties a) := by
  have hmem : ∀ e, e ∈ propertyEntries a ↔
      ((∃ o ∈ a.ManagedObjects, e ∈ o.2.Properties) ∨
       (∃ o ∈ a.DataObjects, e ∈ o.2.Properties) ∨
       (∃ o ∈ a.Enums, e ∈ o.2.Constants) ∨
       (∃ o ∈ a.Faults, e ∈ o.2.Properties)) := by
    intro e
    unfold propertyEntries
    simp only [List.mem_append, List.mem_flatMap]
  obtain ⟨h1, h2, h3⟩ := collect_spec (propertyEntries a)
  rw [getDeprecatedProperties_eq]
  refine ⟨?_, ?_, h3, ?_⟩
  · intro n
    rw [h1 n]
    constructor
    · rintro ⟨f, hf, hd⟩
      rcases (hmem (n, f)).1 hf with ⟨o, ho, hin⟩ | ⟨o, ho, hin⟩ | ⟨o, ho, hin⟩ | ⟨o, ho, hin⟩
      · exact Or.inl ⟨o, ho, f, hin, hd⟩
      · exact Or.inr (Or.inl ⟨o, ho, f, hin, hd⟩)
      · exact Or.inr (Or.inr (Or.inl ⟨o, ho, f, hin, hd⟩))
      · exact Or.inr (Or.inr (Or.inr ⟨o, ho, f, hin, hd⟩))
    · rintro (⟨o, ho, f, hin, hd⟩ | ⟨o, ho, f, hin, hd⟩ | ⟨o, ho, f, hin, hd⟩ |
        ⟨o, ho, f, hin, hd⟩)
      · exact ⟨f, (hmem (n, f)).2 (Or.inl ⟨o, ho, hin⟩), hd⟩
      · exact ⟨f, (hmem (n, f)).2 (Or.inr (Or.inl ⟨o, ho, hin⟩)), hd⟩
      · exact ⟨f, (hmem (n, f)).2 (Or.inr (Or.inr (Or.inl ⟨o, ho, hin⟩))), hd⟩
      · exact ⟨f, (hmem (n, f)).2 (Or.inr (Or.inr (Or.inr ⟨o, ho, hin⟩))), hd⟩
  · intro e he
    obtain ⟨hin, hd⟩ := h2 e he
    exact ⟨hd, (hmem e).1 hin⟩
  · intro b hmo hdo hen hfa
    rw [getDeprecatedProperties_eq]
    have : propertyEntries b = propertyEntries a := by
      unfold propertyEntries
      rw [List.flatMap_def b.ManagedObjects, List.flatMap_def a.ManagedObjects, hmo, hdo,
        hen, hfa]
    rw [this]

/-! ## Chains inside one unit -/

theorem calleeFact_some (p : Pass) (c : CallExpr) (t : Obj) (h : c.callee = some t) :
    calleeFact p c = ImportObjectFact p t := by
  unfold calleeFact
  rw [h]

/-- C19 (chains inside a unit depend on the declaration order).  A unit declares
`a` and `b`; the body of `b` is one call to a function `t` that carries an
`isDeprecated` fact with origin `fqn` when the pass starts (an imported function),
the body of `a` is one call to `b`, and neither carries a fact when the pass
starts.  With `b` declared before
`a`, `runCallers` tags `b` and `a` with `fqn` and, when reporting, reports both
calls.  With `a` declared before `b`, `runCallers` tags `b` only: `a` is left
untagged and the call of `a` gets no diagnostic.  The declarations are visited
once, in order. -/
theorem intra_unit_chain_order (path : String) (imports : List String) (report : Bool)
    (pass : Pass) (a b : FuncDecl) (ca cb : CallExpr) (t : Obj) (fqn : String)
    (hkey : a.key ≠ b.key)
    (ha : a.body = [ca]) (hca : ca.callee = some ⟨path, b.key⟩)
    (hb : b.body = [cb]) (hcb : cb.callee = some t)
    (htf : ImportObjectFact pass t = some fqn)
    (hfa : ImportObjectFact pass ⟨path, a.key⟩ = none)
    (hfb : ImportObjectFact pass ⟨path, b.key⟩ = none) :
    (ImportObjectFact (runCallers ⟨path, imports, [b, a]⟩ report pass) ⟨path, b.key⟩ =
        some fqn ∧
      ImportObjectFact (runCallers ⟨path, imports, [b, a]⟩ report pass) ⟨path, a.key⟩ =
        some fqn ∧
      (runCallers ⟨path, imports, [b, a]⟩ report pass).diagnostics =
        pass.diagnostics ++
          (if report then
            [⟨cb.pos, "deprecated API detected: " ++ fqn⟩,
             ⟨ca.pos, "deprecated API detected: " ++ fqn⟩]
           else [])) ∧
    (ImportObjectFact (runCallers ⟨path, imports, [a, b]⟩ report pass) ⟨path, b.key⟩ =
        some fqn ∧
      ImportObjectFact (runCallers ⟨path, imports, [a, b]⟩ report pass) ⟨path, a.key⟩ =
        none ∧
      (runCallers ⟨path, imports, [a, b]⟩ report pass).diagnostics =
        pass.diagnostics ++
          (if report then [⟨cb.pos, "deprecated API detected: " ++ fqn⟩] else [])) := by
  have hab : (⟨path, a.key⟩ : Obj) ≠ ⟨path, b.key⟩ := by
    intro h
    exact hkey (congrArg Obj.key h)
  constructor
  · -- `b` is declared before `a`
    have h1 : calleeFact pass cb = some fqn := by rw [calleeFact_some _ _ _ hcb]; exact htf
    have hs1 := visitCall_some ⟨path, imports, [b, a]⟩ report b (pass, false) cb fqn h1
    have hi1 : ImportObjectFact
        (visitCall ⟨path, imports, [b, a]⟩ report b (pass, false) cb).1 ⟨path, b.key⟩ =
        some fqn := import_visitCall_some _ _ _ _ _ _ h1
    have h2 : calleeFact (visitCall ⟨path, imports, [b, a]⟩ report b (pass, false) cb).1 ca =
        some fqn := by rw [calleeFact_some _ _ _ hca]; exact hi1
    have hs2 := visitCall_some ⟨path, imports, [b, a]⟩ report a _ ca fqn h2
    have hfold : [b, a].foldl (visitDecl ⟨path, imports, [b, a]⟩ report) (pass, false) =
        visitCall ⟨path, imports, [b, a]⟩ report a
          (visitCall ⟨path, imports, [b, a]⟩ report b (pass, false) cb) ca := by
      simp [visitDecl, ha, hb]
    refine ⟨?_, ?_, ?_⟩
    · rw [runCallers_import]
      change ImportObjectFact
        (List.foldl (visitDecl ⟨path, imports, [b, a]⟩ report) (pass, false) [b, a]).1 _ = _
      rw [hfold, import_visitCall_other _ _ _ _ _ _
        (show (⟨path, b.key⟩ : Obj) ≠ Defs ⟨path, imports, [b, a]⟩ a from Ne.symm hab)]
      exact hi1
    · rw [runCallers_import]
      change ImportObjectFact
        (List.foldl (visitDecl ⟨path, imports, [b, a]⟩ report) (pass, false) [b, a]).1 _ = _
      rw [hfold]
      exact import_visitCall_some _ _ _ _ _ _ h2
    · rw [runCallers_diagnostics]
      change (List.foldl (visitDecl ⟨path, imports, [b, a]⟩ report) (pass, false)
        [b, a]).1.diagnostics = _
      rw [hfold, hs2, hs1]
      cases report <;> simp [Reportf, ExportObjectFact]
  · -- `a` is declared before `b`
    have h0 : calleeFact pass ca = none := by rw [calleeFact_some _ _ _ hca]; exact hfb
    have hs0 := visitCall_none ⟨path, imports, [a, b]⟩ report a (pass, false) ca h0
    have h1 : calleeFact pass cb = some fqn := by rw [calleeFact_some _ _ _ hcb]; exact htf
    have hs1 := visitCall_some ⟨path, imports, [a, b]⟩ report b (pass, false) cb fqn h1
    have hfold : [a, b].foldl (visitDecl ⟨path, imports, [a, b]⟩ report) (pass, false) =
        visitCall ⟨path, imports, [a, b]⟩ report b (pass, false) cb := by
      simp [visitDecl, ha, hb, hs0]
    refine ⟨?_, ?_, ?_⟩
    · rw [runCallers_import]
      change ImportObjectFact
        (List.foldl (visitDecl ⟨path, imports, [a, b]⟩ report) (pass, false) [a, b]).1 _ = _
      rw [hfold]
      exact import_visitCall_some _ _ _ _ _ _ h1
    · rw [runCallers_import]
      change ImportObjectFact
        (List.foldl (visitDecl ⟨path, imports, [a, b]⟩ report) (pass, false) [a, b]).1 _ = _
      rw [hfold, import_visitCall_other _ _ _ _ _ _
        (show (⟨path, a.key⟩ : Obj) ≠ Defs ⟨path, imports, [a, b]⟩ b from hab)]
      exact hfa
    · rw [runCallers_diagnostics]
      change (List.foldl (visitDecl ⟨path, imports, [a, b]⟩ report) (pass, false)
        [a, b]).1.diagnostics = _
      rw [hfold, hs1]
      cases report <;> simp [Reportf, ExportObjectFact]

theorem intra_unit_chain_order_witness :
    (ImportObjectFact (runCallers ⟨"example.com/app", ["github.com/vmware/govmomi/object"],
          [⟨"b", "b", [⟨41, some ⟨"github.com/vmware/govmomi/object", "Start"⟩⟩]⟩,
           ⟨"a", "a", [⟨40, some ⟨"example.com/app", "b"⟩⟩]⟩]⟩ true
          (freshPass scenarioFactsLibrary)) ⟨"example.com/app", "b"⟩ =
        some "VirtualMachine.PowerOn" ∧
      ImportObjectFact (runCallers ⟨"example.com/app", ["github.com/vmware/govmomi/object"],
          [⟨"b", "b", [⟨41, some ⟨"github.com/vmware/govmomi/object", "Start"⟩⟩]⟩,
           ⟨"a", "a", [⟨40, some ⟨"example.com/app", "b"⟩⟩]⟩]⟩ true
          (freshPass scenarioFactsLibrary)) ⟨"example.com/app", "a"⟩ =
        some "VirtualMachine.PowerOn" ∧
      (runCallers ⟨"example.com/app", ["github.com/vmware/govmomi/object"],
          [⟨"b", "b", [⟨41, some ⟨"github.com/vmware/govmomi/object", "Start"⟩⟩]⟩,
           ⟨"a", "a", [⟨40, some ⟨"example.com/app", "b"⟩⟩]⟩]⟩ true
          (freshPass scenarioFactsLibrary)).diagnostics =
        (freshPass scenarioFactsLibrary).diagnostics ++
          (if true = true then
            [⟨41, "deprecated API detected: " ++ "VirtualMachine.PowerOn"⟩,
             ⟨40, "deprecated API detected: " ++ "VirtualMachine.PowerOn"⟩]
           else [])) ∧
    (ImportObjectFact (runCallers ⟨"example.com/app", ["github.com/vmware/govmomi/object"],
          [⟨"a", "a", [⟨40, some ⟨"example.com/app", "b"⟩⟩]⟩,
           ⟨"b", "b", [⟨41, some ⟨"github.com/vmware/govmomi/object", "Start"⟩⟩]⟩]⟩ true
          (freshPass scenarioFactsLibrary)) ⟨"example.com/app", "b"⟩ =
        some "VirtualMachine.PowerOn" ∧
      ImportObjectFact (runCallers ⟨"example.com/app", ["github.com/vmware/govmomi/object"],
          [⟨"a", "a", [⟨40, some ⟨"example.com/app", "b"⟩⟩]⟩,
           ⟨"b", "b", [⟨41, some ⟨"github.com/vmware/govmomi/object", "Start"⟩⟩]⟩]⟩ true
          (freshPass scenarioFactsLibrary)) ⟨"example.com/app", "a"⟩ =
        none ∧
      (runCallers ⟨"example.com/app", ["github.com/vmware/govmomi/object"],
          [⟨"a", "a", [⟨40, some ⟨"example.com/app", "b"⟩⟩]⟩,
           ⟨"b", "b", [⟨41, some ⟨"github.com/vmware/govmomi/object", "Start"⟩⟩]⟩]⟩ true
          (freshPass scenarioFactsLibrary)).diagnostics =
        (freshPass scenarioFactsLibrary).diagnostics ++
          (if true = true then
            [⟨41, "deprecated API detected: " ++ "VirtualMachine.PowerOn"⟩] else [])) :=
  intra_unit_chain_order "example.com/app" ["github.com/vmware/govmomi/object"] true
    (freshPass scenarioFactsLibrary)
    ⟨"a", "a", [⟨40, some ⟨"example.com/app", "b"⟩⟩]⟩
    ⟨"b", "b", [⟨41, some ⟨"github.com/vmware/govmomi/object", "Start"⟩⟩]⟩
    ⟨40, some ⟨"example.com/app", "b"⟩⟩
    ⟨41, some ⟨"github.com/vmware/govmomi/object", "Start"⟩⟩
    ⟨"github.com/vmware/govmomi/object", "Start"⟩ "VirtualMachine.PowerOn"
    (by decide) rfl rfl rfl rfl (by decide) (by decide) (by decide)

/-! ## The Interest Filter and units imported indirectly -/

/-- C17, the code at the failing input.  The binding layer, the library unit
`indirectLibrary` and the helper `indirectHelper` are analysed in dependency order
from the empty store; the helper gets no package fact, since none of its functions
is tagged.  The consumer `indirectConsumer` imports the helper only, so none of
its direct imports carries `hasDeprecated` and `run` skips it: no fact, no
diagnostic.  Its
call at position 60 goes to the method `VirtualMachine.PowerOn` of the library
unit, which carries an `isDeprecated` fact: `runCallers` on the same unit and
store tags `main`, flags the unit and reports the call. -/
theorem skipped_unit_has_tagged_call :
    (analyse scenarioDb [scenarioMethods, indirectLibrary, indirectHelper] emptyFacts).map
        Prod.fst = some indirectFacts ∧
    interesting indirectConsumer (freshPass indirectFacts) = false ∧
    run scenarioDb indirectConsumer (freshPass indirectFacts) = some (freshPass indirectFacts) ∧
    ImportObjectFact (freshPass indirectFacts)
        ⟨"github.com/vmware/govmomi/object", "VirtualMachine.PowerOn"⟩ =
      some "VirtualMachine.PowerOn" ∧
    (runCallers indirectConsumer true (freshPass indirectFacts)).objExports =
      [(⟨"example.com/tool", "main"⟩, "VirtualMachine.PowerOn")] ∧
    (runCallers indirectConsumer true (freshPass indirectFacts)).pkgExports =
      ["example.com/tool"] ∧
    (runCallers indirectConsumer true (freshPass indirectFacts)).diagnostics =
      [⟨60, "deprecated API detected: VirtualMachine.PowerOn"⟩] := by
  refine ⟨by decide, by decide, by decide, by decide, by decide, by decide, by decide⟩

/-! ## The classification of the units -/

/-- Off the root of the namespace, `run` classifies as the specification says: an
interesting unit other than the binding layer and the root unit is passed to
`runCallers` with `report = false` exactly when it is a library unit. -/
theorem run_classification_off_root (data : Db) (pkg : Package) (pass : Pass)
    (hroot : pkg.path ≠ vmomiPackage) (hpath : pkg.path ≠ methodsPkgPath)
    (hint : interesting pkg pass = true) :
    run data pkg pass = some (runCallers pkg (!(libraryBySpec pkg.path)) pass) := by
  have hb : (pkg.path == methodsPkgPath) = false := by simpa using hpath
  have hr : (pkg.path == vmomiPackage) = false := by simpa using hroot
  unfold run libraryBySpec
  simp only [hb, hr, hint, Bool.false_eq_true, if_false, Bool.not_true, Bool.false_or,
    Bool.not_false, Bool.and_true]
  cases HasPrefix pkg.path (vmomiPackage ++ "/") <;> rfl

/-- C18, the code at the failing input.  The root unit `github.com/vmware/govmomi`
lies within the namespace of the project and is not the binding layer, yet its
path does not start with `github.com/vmware/govmomi/`: `run` passes it to
`runCallers` with `report = true` and its call to a deprecated operation is
reported, where `report = false` reports nothing.  The unit
`github.com/vmware/govmomi-extra`, outside the namespace, is a consumer for the
specification and for `run`. -/
theorem root_unit_is_reported :
    libraryBySpec rootUnit.path = true ∧
    run scenarioDb rootUnit (freshPass scenarioFactsMethods) =
      some (runCallers rootUnit true (freshPass scenarioFactsMethods)) ∧
    (runCallers rootUnit true (freshPass scenarioFactsMethods)).diagnostics =
      [⟨70, "deprecated API detected: VirtualMachine.PowerOn"⟩] ∧
    (runCallers rootUnit false (freshPass scenarioFactsMethods)).diagnostics = [] ∧
    libraryBySpec extraUnit.path = false ∧
    run scenarioDb extraUnit (freshPass scenarioFactsMethods) =
      some (runCallers extraUnit true (freshPass scenarioFactsMethods)) := by
  refine ⟨by decide, by decide, by decide, by decide, by decide, by decide⟩

/-! ## The consistency check and declarations of the same name -/

/-- C20, the code at the failing inputs.  The snapshot `twoObjectsApi` has the two
deprecated methods `PowerOn` and `Reboot`.  For the binding layer
`duplicateMethods`, with two declarations named `PowerOn` and none named `Reboot`,
`counter` is 2, the length of the map, and `runMethods` logs nothing although
`Reboot` has no declaration.  For `duplicateMethodsTotal`, where every entry has
a declaration, `counter` is 3 and `runMethods` logs the warning. -/
theorem warning_counts_declarations :
    (GetDeprecatedMethods twoObjectsApi).map Prod.fst = ["Reboot", "PowerOn"] ∧
    everyEntryMapped duplicateMethods (GetDeprecatedMethods twoObjectsApi) = false ∧
    (runMethods [("7.0", twoObjectsApi)] duplicateMethods (freshPass emptyFacts)).map
        Pass.logs = some [] ∧
    everyEntryMapped duplicateMethodsTotal (GetDeprecatedMethods twoObjectsApi) = true ∧
    (runMethods [("7.0", twoObjectsApi)] duplicateMethodsTotal (freshPass emptyFacts)).map
        Pass.logs = some ["some deprecated methods are not mapped"] := by
  refine ⟨by decide, by decide, by decide, by decide, by decide⟩

/-! ## The order of the versions -/

theorem collect_keys_fold (data : Db) (acc : List String) :
    data.foldl (fun versions e => versions ++ [e.1]) acc = acc ++ data.map Prod.fst := by
  induction data generalizing acc with
  | nil => simp
  | cons e es ih =>
    rw [List.foldl_cons, ih]
    simp

theorem versionLess_strictWeak (Compare : String → String → Int)
    (hcmp : ComparesByPrecedence Compare) :
    StrictWeakOrdering (fun x y => versionLess Compare x y) := by
  obtain ⟨h1, h2⟩ := hcmp
  constructor
  · intro a b hab
    unfold versionLess at hab ⊢
    simp only [beq_iff_eq] at hab
    have := h1 _ _ hab
    simpa using this
  · intro a b c hab hbc
    unfold versionLess at hab hbc ⊢
    simp only [beq_eq_false_iff_ne, ne_eq] at hab hbc ⊢
    exact h2 _ _ _ hab hbc

/-- C15 (the order of `APIVersions`).  For every loaded database, a map with one
entry per version, `APIVersions` returns a permutation of the keys of the
database, so each loaded version exactly once, and no element of the result is
lower than an element before it, where lower is `versionLess`: `semver.Compare`
giving `-1` on the two versions with a leading `v` added when missing.
`semver.Compare` and `sort.Slice` enter with their contracts. -/
theorem apiVersions_sorted_permutation (Compare : String → String → Int)
    (sortSlice : (String → String → Bool) → List String → List String) (data : Db)
    (hkeys : (data.map Prod.fst).Nodup)
    (hcmp : ComparesByPrecedence Compare) (hsort : SortsSlices sortSlice) :
    (APIVersions Compare sortSlice data).Perm (data.map Prod.fst) ∧
    (APIVersions Compare sortSlice data).Nodup ∧
    (APIVersions Compare sortSlice data).Pairwise
      (fun x y => versionLess Compare y x = false) := by
  unfold APIVersions
  rw [collect_keys_fold, List.nil_append]
  obtain ⟨hp, hs⟩ := hsort (fun x y => versionLess Compare x y) (data.map Prod.fst)
    (versionLess_strictWeak Compare hcmp)
  exact ⟨hp, hp.nodup_iff.2 hkeys, hs⟩

theorem numericCompare_lower (a b : String) :
    numericCompare a b = -1 ↔ versionNumber a < versionNumber b := by
  unfold numericCompare
  by_cases h1 : versionNumber a < versionNumber b
  · simp [h1]
  · by_cases h2 : versionNumber b < versionNumber a
    · simp [h1, h2]
    · simp [h1, h2]

theorem numericCompare_precedence : ComparesByPrecedence numericCompare := by
  constructor
  · intro a b hab
    rw [numericCompare_lower] at hab
    rw [ne_eq, numericCompare_lower]
    omega
  · intro a b c hab hbc
    rw [ne_eq, numericCompare_lower] at hab hbc ⊢
    omega

theorem insertionSortSlice_sorts : SortsSlices insertionSortSlice := by
  intro less l hless
  obtain ⟨h1, h2⟩ := hless
  unfold insertionSortSlice
  refine ⟨List.perm_insertionSort _ l, ?_⟩
  haveI : IsTotal String (fun x y => less y x = false) := ⟨by
    intro a b
    cases hba : less b a
    · exact Or.inl rfl
    · exact Or.inr (h1 b a hba)⟩
  haveI : IsTrans String (fun x y => less y x = false) := ⟨by
    intro a b c hab hbc
    exact h2 c b a hbc hab⟩
  exact List.sorted_insertionSort (fun x y => less y x = false) l

theorem apiVersions_sorted_permutation_witness :
    (APIVersions numericCompare insertionSortSlice threeVersionsDb).Perm
        (threeVersionsDb.map Prod.fst) ∧
    (APIVersions numericCompare insertionSortSlice threeVersionsDb).Nodup ∧
    (APIVersions numericCompare insertionSortSlice threeVersionsDb).Pairwise
      (fun x y => versionLess numericCompare y x = false) :=
  apiVersions_sorted_permutation numericCompare insertionSortSlice threeVersionsDb
    (by decide) numericCompare_precedence insertionSortSlice_sorts

/-! ## Diagnostics in the root unit of the namespace -/

/-- C3, the code at the failing input.  The unit `github.com/vmware/govmomi` lies
within the namespace of the project and is not the binding layer, so it is a
library unit and the claim allows it no diagnostic.  Its path does not start with
`github.com/vmware/govmomi/`, so `run` calls `runCallers` with `report = true`: on
the store reached after the binding layer and the library unit, the call of
`PowerOnVM` to the tagged wrapper `Start` is reported.  Below the root of the
namespace `run` reports nothing (`run_library_no_diagnostic`). -/
theorem library_root_unit_gets_diagnostic :
    libraryBySpec rootWrapperUnit.path = true ∧
    HasPrefix rootWrapperUnit.path (vmomiPackage ++ "/") = false ∧
    (analyse scenarioDb [scenarioMethods, scenarioLibrary] emptyFacts).map Prod.fst =
      some scenarioFactsLibrary ∧
    (run scenarioDb rootWrapperUnit (freshPass scenarioFactsLibrary)).map Pass.diagnostics =
      some [⟨75, "deprecated API detected: VirtualMachine.PowerOn"⟩] := by
  refine ⟨by decide, by decide, by decide, by decide⟩

end Govmomi
